import Mathlib

/-!
Verification development for the ToyEmu repository (the `aspen` emulator
crate and its companions).  Rust sources are shallowly embedded: machine
words (`u32`) are `Nat` with explicit `% 2^32` where the source wraps,
byte memory is a function `Nat → Nat`, fallible operations return
`Except`/`Option`, and host panics are modelled by a dedicated outcome.
-/

namespace ToyEmu

/-- `2^32`, the size of the address space (`MEM_SIZE` in `mmu.rs`). -/
def U32MOD : Nat := 4294967296

/-- `2^64`, for the 64-bit cycle counter. -/
def U64MOD : Nat := 18446744073709551616

/-- Page size, from `mmu.rs` / `memory.rs` (`PAGE_SIZE = 4096`). -/
def PAGE_SIZE : Nat := 4096

/-- Byte-addressable memory: the byte stored at each address.
Well-formed memories store values `< 256` at addresses `< 2^32`. -/
def Mem : Type := Nat → Nat

/-- `i`-th little-endian byte of a natural number. -/
def leByte (v i : Nat) : Nat := v / 256 ^ i % 256

/-!  ## `src/aspen/src/mmu/memory.rs` — the atomic `Memory`

`Memory::slice(addr..=end)` computes the slice length as
`end.saturating_sub(start.saturating_sub(1))`; `Nat` subtraction is
saturating, so the translation is verbatim. -/

/-- Length of the slice returned by `Memory::slice` for the inclusive
range `start..=endd` (`mmu/memory.rs`, line 110). -/
def sliceLen (start endd : Nat) : Nat := endd - (start - 1)

/-- Error type of the atomic memory (`MemError` in `mmu.rs`); only the
variants reachable from the embedded operations are carried.
`pageFault` carries the missing protection bits as a `u8` mask. -/
inductive MemErr : Type where
  | pageFault (missing : Nat)
  | overflow
  deriving DecidableEq, Repr

/-- Store `cnt` little-endian bytes of `val` at `addr..addr+cnt-1`
(the `for (a, v) in data.iter().zip(buf)` loop of `Memory::write`:
only `min (slice length) (byte-count of the value)` bytes move). -/
def storeLE : Nat → Mem → Nat → Nat → Mem
  | 0, m, _, _ => m
  | cnt + 1, m, addr, val =>
      storeLE cnt (fun a => if a = addr then val % 256 else m a) (addr + 1) (val / 256)

/-- Read `cnt` bytes at `addr..addr+cnt-1` as a little-endian integer;
bytes beyond `cnt` contribute `0`, exactly as the zero-initialised
`N::Buf::default()` buffer of `Memory::read` does. -/
def readLE : Nat → Mem → Nat → Nat
  | 0, _, _ => 0
  | cnt + 1, m, addr => m addr + 256 * readLE cnt m (addr + 1)

/-- `Memory::write::<N>` from `mmu/memory.rs` (lines 115–132): `n` is
`size_of::<N>()`.  The end address is `addr + (n-1)` checked against
`u32`; the byte loop zips the slice (length `sliceLen`) with the `n`
value bytes, so `min` of the two lengths is transferred. -/
def memWrite (n : Nat) (m : Mem) (addr val : Nat) : Except MemErr Mem :=
  if addr + (n - 1) < U32MOD then
    .ok (storeLE (min (sliceLen addr (addr + (n - 1))) n) m addr val)
  else
    .error .overflow

/-- `Memory::read::<N>` from `mmu/memory.rs` (lines 134–147). -/
def memRead (n : Nat) (m : Mem) (addr : Nat) : Except MemErr Nat :=
  if addr + (n - 1) < U32MOD then
    .ok (readLE (min (sliceLen addr (addr + (n - 1))) n) m addr)
  else
    .error .overflow

/-- Whether an `Except` is a success. -/
def exceptOk {ε α : Type} : Except ε α → Bool
  | .ok _ => true
  | .error _ => false

end ToyEmu

namespace ToyEmu

/-! ### Auxiliary lemmas about the byte loops -/

theorem storeLE_outside (cnt : Nat) :
    ∀ (m : Mem) (addr val a : Nat), (a < addr ∨ addr + cnt ≤ a) →
      storeLE cnt m addr val a = m a := by
  induction cnt with
  | zero => intro m addr val a _; rfl
  | succ c ih =>
      intro m addr val a h
      show storeLE c _ (addr + 1) _ a = m a
      rw [ih _ (addr + 1) _ a (by omega)]
      have : a ≠ addr := by omega
      simp [this]

theorem storeLE_inside (cnt : Nat) :
    ∀ (m : Mem) (addr val i : Nat), i < cnt →
      storeLE cnt m addr val (addr + i) = leByte val i := by
  induction cnt with
  | zero => intro m addr val i h; omega
  | succ c ih =>
      intro m addr val i h
      show storeLE c _ (addr + 1) (val / 256) (addr + i) = leByte val i
      rcases Nat.eq_zero_or_pos i with hi | hi
      · subst hi
        simp only [Nat.add_zero]
        rw [storeLE_outside c _ (addr + 1) _ addr (by omega)]
        simp [leByte]
      · have : addr + i = (addr + 1) + (i - 1) := by omega
        rw [this, ih _ (addr + 1) _ (i - 1) (by omega)]
        have hv : val / 256 / 256 ^ (i - 1) = val / 256 ^ i := by
          rw [Nat.div_div_eq_div_mul]
          congr 1
          rw [← pow_succ']
          congr 1
          omega
        simp [leByte, hv]

theorem readLE_congr (cnt : Nat) :
    ∀ (m m' : Mem) (addr : Nat), (∀ i, i < cnt → m (addr + i) = m' (addr + i)) →
      readLE cnt m addr = readLE cnt m' addr := by
  induction cnt with
  | zero => intro _ _ _ _; rfl
  | succ c ih =>
      intro m m' addr h
      show m addr + 256 * readLE c m (addr + 1) = m' addr + 256 * readLE c m' (addr + 1)
      rw [ih m m' (addr + 1) (fun i hi => by
        have := h (1 + i) (by omega)
        simpa [Nat.add_assoc] using this)]
      have := h 0 (by omega)
      simp only [Nat.add_zero] at this
      rw [this]

theorem readLE_lt (cnt : Nat) :
    ∀ (m : Mem) (addr : Nat), (∀ a, m a < 256) → readLE cnt m addr < 256 ^ cnt := by
  induction cnt with
  | zero => intro m addr _; simp [readLE]
  | succ c ih =>
      intro m addr hb
      have h1 := hb addr
      have h2 := ih m (addr + 1) hb
      show m addr + 256 * readLE c m (addr + 1) < 256 ^ (c + 1)
      have : 256 ^ (c + 1) = 256 * 256 ^ c := by ring
      omega

/-- Reading back `cnt` stored little-endian bytes recovers `val % 256^cnt`. -/
theorem readLE_storeLE (cnt : Nat) :
    ∀ (m : Mem) (addr val : Nat),
      readLE cnt (storeLE cnt m addr val) addr = val % 256 ^ cnt := by
  induction cnt with
  | zero => intro m addr val; simp [readLE, storeLE, Nat.mod_one]
  | succ c ih =>
      intro m addr val
      show (storeLE (c+1) m addr val) addr +
        256 * readLE c (storeLE (c+1) m addr val) (addr + 1) = val % 256 ^ (c + 1)
      have h0 : (storeLE (c+1) m addr val) addr = val % 256 := by
        have := storeLE_inside (c+1) m addr val 0 (by omega)
        simpa [leByte] using this
      have h1 : readLE c (storeLE (c+1) m addr val) (addr + 1) = (val / 256) % 256 ^ c := by
        show readLE c (storeLE c _ (addr + 1) (val / 256)) (addr + 1) = (val / 256) % 256 ^ c
        exact ih _ (addr + 1) (val / 256)
      rw [h0, h1]
      have hpow : 256 ^ (c + 1) = 256 * 256 ^ c := by ring
      rw [hpow, Nat.mod_mul]

end ToyEmu

namespace ToyEmu

/-- Concrete memory holding bytes `78 56 34 12` at addresses `0..=3`
and zero elsewhere. -/
def memC1 : Mem := fun a =>
  if a = 0 then 0x78 else if a = 1 then 0x56 else
  if a = 2 then 0x34 else if a = 3 then 0x12 else 0

/-- A memory that is zero everywhere. -/
def memZero : Mem := fun _ => 0

/-- C1 (code_bug evidence): typed accesses are *not* little-endian at
every address.  With bytes `[0x78, 0x56, 0x34, 0x12]` stored at
addresses `0..=3`, `Memory::read::<u32>(0)` of `mmu/memory.rs` returns
`0x00345678`, not the little-endian value `0x12345678` the claim
requires: the slice-length computation
`end.saturating_sub(start.saturating_sub(1))` drops one byte when the
access starts at address `0`. -/
theorem c1_read_at_zero_loses_top_byte :
    memRead 4 memC1 0 = .ok 0x345678 ∧ (0x345678 : Nat) ≠ 0x12345678 := by
  constructor
  · rfl
  · decide

/-- C6: an `N`-byte typed read or write on the atomic memory
(`mmu/memory.rs`) fails with `Overflow` exactly when
`addr + N − 1` overflows 32 bits; in particular a 4-byte access at
`0xFFFFFFFC` (last byte `0xFFFFFFFF`) passes the overflow check. -/
theorem c6_overflow_check_exact (n : Nat) (m : Mem) (addr val : Nat) (hn : 1 ≤ n) :
    (memRead n m addr = .error .overflow ↔ U32MOD ≤ addr + (n - 1))
    ∧ (memWrite n m addr val = .error .overflow ↔ U32MOD ≤ addr + (n - 1))
    ∧ (exceptOk (memRead n m addr) = false ↔ U32MOD ≤ addr + (n - 1))
    ∧ exceptOk (memRead 4 m 4294967292) = true := by
  refine ⟨?_, ?_, ?_, ?_⟩
  · unfold memRead
    split
    · constructor
      · intro h; exact absurd h (by simp)
      · intro h; omega
    · simp; omega
  · unfold memWrite
    split
    · constructor
      · intro h; exact absurd h (by simp)
      · intro h; omega
    · simp; omega
  · unfold memRead
    split
    · simp [exceptOk]; omega
    · simp [exceptOk]; omega
  · unfold memRead
    have h : (4294967292 : Nat) + (4 - 1) < U32MOD := by unfold U32MOD; omega
    rw [if_pos h]
    rfl

/-- Witness for C6 at `n = 4`, `addr = 0xFFFFFFFC`. -/
theorem c6_overflow_check_exact_witness :
    (memRead 4 memZero 4294967292 = .error .overflow ↔ U32MOD ≤ 4294967292 + (4 - 1)) ∧
    (1 : Nat) ≤ 4 := by
  exact ⟨(c6_overflow_check_exact 4 memZero 4294967292 0 (by omega)).1, by omega⟩

/-- C10: on the atomic memory of `mmu/memory.rs`, every `N`-byte typed
access starting at address `0` covers only `N − 1` bytes, because
`slice()` computes the length as `end − (start − 1)` with saturating
subtraction.  Hence `write<N>(0, v)` stores only the `N − 1`
least-significant bytes of `v` (byte `N − 1` is untouched),
`read<N>(0)` returns a value below `256^(N−1)` (most significant byte
zero), while every access starting at an address `≥ 1` transfers the
full `N` bytes. -/
theorem c10_slice_at_zero_short_by_one
    (n : Nat) (m : Mem) (val : Nat) (hn : 1 ≤ n) (hn2 : n < U32MOD)
    (hb : ∀ a, m a < 256) :
    (memWrite n m 0 val = .ok (fun a => if a < n - 1 then leByte val a else m a))
    ∧ (memRead n m 0 = .ok (readLE (n - 1) m 0) ∧ readLE (n - 1) m 0 < 256 ^ (n - 1))
    ∧ (∀ addr, 1 ≤ addr → addr + (n - 1) < U32MOD →
        memWrite n m addr val = .ok (storeLE n m addr val)
        ∧ memRead n m addr = .ok (readLE n m addr)
        ∧ readLE n (storeLE n m addr val) addr = val % 256 ^ n) := by
  have hmin0 : min (sliceLen 0 (0 + (n - 1))) n = n - 1 := by
    unfold sliceLen; omega
  refine ⟨?_, ⟨?_, ?_⟩, ?_⟩
  · unfold memWrite
    rw [if_pos (by omega), hmin0]
    congr 1
    funext a
    by_cases ha : a < n - 1
    · rw [if_pos ha]
      have := storeLE_inside (n - 1) m 0 val a ha
      simpa using this
    · rw [if_neg ha]
      exact storeLE_outside (n - 1) m 0 val a (by omega)
  · unfold memRead
    rw [if_pos (by omega), hmin0]
  · exact readLE_lt (n - 1) m 0 hb
  · intro addr h1 h2
    have hmin : min (sliceLen addr (addr + (n - 1))) n = n := by
      unfold sliceLen; omega
    refine ⟨?_, ?_, ?_⟩
    · unfold memWrite
      rw [if_pos h2, hmin]
    · unfold memRead
      rw [if_pos h2, hmin]
    · exact readLE_storeLE n m addr val

/-- Witness for C10 at `n = 4`, `addr = 0` and `addr = 16`. -/
theorem c10_slice_at_zero_short_by_one_witness :
    (memWrite 4 memZero 0 0x12345678
      = .ok (fun a => if a < 4 - 1 then leByte 0x12345678 a else memZero a))
    ∧ (memWrite 4 memZero 16 0x12345678 = .ok (storeLE 4 memZero 16 0x12345678)) := by
  have h := c10_slice_at_zero_short_by_one 4 memZero 0x12345678 (by omega)
    (by unfold U32MOD; omega) (fun a => by unfold memZero; omega)
  exact ⟨h.1, (h.2.2 16 (by omega) (by unfold U32MOD; omega)).1⟩

end ToyEmu

namespace ToyEmu

/-!  ## `src/aspen/src/mmu.rs` — page protection

A page-protection table is a function from page index to a `u8` mask
with bits `Read = 0b001`, `Write = 0b010`, `Execute = 0b100`
(the `Prot` bitflags).  `src/aspen/src/memory.rs` carries the very
same `check_prot`/`change_prot` loops over its `pages` vector, so the
embedding below serves both files. -/

/-- `Prot::Read` bit. -/
def ProtRead : Nat := 1
/-- `Prot::Write` bit. -/
def ProtWrite : Nat := 2
/-- `Prot::Execute` bit. -/
def ProtExec : Nat := 4

/-- `BitFlags::contains`: every bit of `req` is present in `record`. -/
def protContains (record req : Nat) : Bool := record &&& req == req

/-- `!record & req` on 3-bit `Prot` masks: `Not` on `BitFlags`
complements within the valid bits `0b111`. -/
def protMissing (record req : Nat) : Nat := (7 ^^^ record) &&& req

/-- The addresses visited by `addr.into_iter().step_by(PAGE_SIZE)` for
the inclusive range `start..=endd`: `start + PAGE_SIZE * k` while
`≤ endd`. -/
def stepAddrs (start endd : Nat) : List Nat :=
  if start ≤ endd then
    (List.range ((endd - start) / PAGE_SIZE + 1)).map (fun k => start + PAGE_SIZE * k)
  else []

/-- Body of the `Mmu::check_prot` loop (`mmu.rs` lines 124–131). -/
def checkProtGo (pages : Nat → Nat) (req : Nat) : List Nat → Except MemErr Unit
  | [] => .ok ()
  | a :: rest =>
      let record := pages (a / PAGE_SIZE)
      if protContains record req then checkProtGo pages req rest
      else .error (.pageFault (protMissing record req))

/-- `Mmu::check_prot(range, req)` over the inclusive range
`start..=endd` (`mmu.rs` lines 116–134; identically
`Memory::check_prot` in `memory.rs` lines 208–221). -/
def checkProt (pages : Nat → Nat) (start endd req : Nat) : Except MemErr Unit :=
  checkProtGo pages req (stepAddrs start endd)

/-- Body of the `set_prot`/`change_prot` loop (`mmu.rs` lines 104–112,
`memory.rs` lines 223–236). -/
def changeProt (pages : Nat → Nat) (start endd req : Nat) : Nat → Nat :=
  (stepAddrs start endd).foldl
    (fun p a => fun i => if i = a / PAGE_SIZE then req else p i) pages

/-- Page table for the C3 counter-scenario: page 0 is `Read|Write`,
every other page has an empty mask. -/
def pagesC3 : Nat → Nat := fun i => if i = 0 then 3 else 0

/-- C3 (code_bug evidence): `check_prot` does *not* check every page
containing a byte of the range.  For the 4-byte range `4095..=4098`,
address `4096` lies in the range and in page 1, whose mask lacks the
required `Read` bit, yet `check_prot` succeeds: the loop steps from
`start` in strides of `PAGE_SIZE` and never lands in the straddled
second page. -/
theorem c3_straddled_page_unchecked :
    checkProt pagesC3 4095 4098 ProtRead = .ok ()
    ∧ (4095 ≤ 4096 ∧ 4096 ≤ 4098 ∧ 4096 / PAGE_SIZE = 1
        ∧ protContains (pagesC3 1) ProtRead = false) := by
  constructor
  · rfl
  · decide

end ToyEmu

namespace ToyEmu

/-!  ## `src/aspen/src/cpu.rs` — the CPU core

`Cpu::process` dispatches on
`(inst.mode, inst.dst, inst.op_code, inst.a, inst.b, inst.imm)`.
Arms that execute `return Ok(())` (hlt, taken jumps, call, ret) are
`ArmRes.early`; all others fall through to the trailing
`self.pc += if inst.imm.is_some() { 8 } else { 4 }`.
Host panics (`unimplemented!`, division by zero, slice-length
mismatches) are `ArmRes.panic` / `Step.panic`.  Arithmetic follows the
release-mode semantics of the source (`wrapping_*` is explicit there;
plain `+`/`<<` wrap or mask in release builds).
stdout/stderr output of `pr`/`epr` is not modelled (it does not touch
the architectural state). -/

/-- u32 wrap. -/
def wrap32 (n : Nat) : Nat := n % U32MOD

/-- `u32::wrapping_sub` for a subtrahend `b ≤ 2^32`. -/
def wsub (a b : Nat) : Nat := (a + U32MOD - b) % U32MOD

/-- Reinterpret a `u32` value as an `i32` (the `as i32` casts). -/
def toInt32 (u : Nat) : Int := if u < 2147483648 then (u : Int) else (u : Int) - 4294967296

/-- Reinterpret an `i32` result as a `u32` (the `as u32` casts). -/
def ofInt32 (i : Int) : Nat := (i % (4294967296 : Int)).toNat

/-- Decoded instruction as consumed by `Cpu::process` (mode, dst,
`op_code`, a, b, optional immediate). -/
structure Inst where
  mode : Nat
  dst : Nat
  op : Nat
  a : Nat
  b : Nat
  imm : Option Nat
  deriving DecidableEq, Repr

/-- CPU state (`Cpu`): the 32-slot register file viewed through its
index array (`Registers::array`), the graphics base `gfx`, the program
counter `pc` and the 64-bit cycle counter `clk`. -/
structure CpuState where
  regs : Nat → Nat
  gfx : Nat
  pc : Nat
  clk : Nat

/-- Pointwise update of one register slot. -/
def updf (f : Nat → Nat) (i v : Nat) : Nat → Nat := fun j => if j = i then v else f j

/-- `Registers::get_reg`: `self.array().get(reg)`, 32 slots. -/
def getReg (regs : Nat → Nat) (r : Nat) : Option Nat :=
  if r < 32 then some (regs r) else none

/-- `Registers::set_reg`: index 0 (`zr`) is a silent no-op; an index
`≥ 32` is a `RegError`. -/
def setReg (regs : Nat → Nat) (r v : Nat) : Option (Nat → Nat) :=
  if r = 0 then some regs
  else if r < 32 then some (updf regs r v) else none

/-- `Registers::default()`: every slot zero except `sp` (index 2),
which starts at `u32::MAX`. -/
def defaultRegs : Nat → Nat := fun j => if j = 2 then 4294967295 else 0

/-- `CpuError`: a register error or an unsupported instruction. -/
inductive CpuError : Type where
  | reg (r : Nat)
  | unsupported (i : Inst)
  deriving DecidableEq, Repr

/-- Result of one `match` arm of `Cpu::process`: fall through to the
pc advance, early `return Ok(())`, propagate an error (with the
partially mutated state, as through `&mut self`), or host panic. -/
inductive ArmRes : Type where
  | fall (s : CpuState) (m : Mem) (stop : Bool) (clk : Nat)
  | early (s : CpuState) (m : Mem) (stop : Bool) (clk : Nat)
  | err (e : CpuError) (s : CpuState) (m : Mem)
  | panic

/-- Result of `Cpu::process` as a whole. -/
inductive Step : Type where
  | ok (s : CpuState) (m : Mem) (stop : Bool) (clk : Nat)
  | err (e : CpuError) (s : CpuState) (m : Mem)
  | panic

/-- Big-endian 4-byte store (`copy_from_slice(&v.to_be_bytes())`),
as used by push/call. -/
def store4BE (m : Mem) (addr v : Nat) : Mem := fun a =>
  if a = addr then v / 16777216 % 256
  else if a = addr + 1 then v / 65536 % 256
  else if a = addr + 2 then v / 256 % 256
  else if a = addr + 3 then v % 256
  else m a

/-- Big-endian 4-byte load (`BitSize::from_be_bytes`), as used by
pop/ret. -/
def read4BE (m : Mem) (addr : Nat) : Nat :=
  m addr * 16777216 + m (addr + 1) * 65536 + m (addr + 2) * 256 + m (addr + 3)

/-- The `w`-th 32-bit value produced by the byte shuffle of the `tme`
arm from the 128-bit nanosecond timestamp `t` (`w = 0` is the value
stored through register index `a`). -/
def tmeWord (t w : Nat) : Nat :=
  leByte t (4 * w) * 16777216 + leByte t (4 * w + 1) * 65536
    + leByte t (4 * w + 2) * 256 + leByte t (4 * w + 3)

/-- Outcome of the pure value computation of an ALU arm: a value or a
host panic (division by zero). -/
inductive AluOut : Type where
  | val (v : Nat)
  | panic

/-- Common shape of the two-operand ALU arms
(`dst ← f (reg a) (reg b | imm)`); the source repeats this skeleton
verbatim in every arm of mode 1. -/
def aluStep (i : Inst) (s : CpuState) (m : Mem) (stop : Bool) (clk : Nat)
    (f : Nat → Nat → AluOut) : ArmRes :=
  match getReg s.regs i.a with
  | none => .err (.reg i.a) s m
  | some av =>
    match (match i.imm with | some v => some v | none => getReg s.regs i.b) with
    | none => .err (.reg i.b) s m
    | some bv =>
      match f av bv with
      | .panic => .panic
      | .val v =>
        match setReg s.regs i.dst v with
        | none => .err (.reg i.dst) s m
        | some r => .fall { s with regs := r } m stop clk

/-- The `mov` arm: `dst ← reg a | imm`. -/
def movStep (i : Inst) (s : CpuState) (m : Mem) (stop : Bool) (clk : Nat) : ArmRes :=
  match (match i.imm with | some v => some v | none => getReg s.regs i.a) with
  | none => .err (.reg i.a) s m
  | some v =>
    match setReg s.regs i.dst v with
    | none => .err (.reg i.dst) s m
    | some r => .fall { s with regs := r } m stop clk

/-- The `inc`/`dec` arms: `dst ← f (reg a)`, immediate ignored. -/
def incDecStep (i : Inst) (s : CpuState) (m : Mem) (stop : Bool) (clk : Nat)
    (f : Nat → Nat) : ArmRes :=
  match getReg s.regs i.a with
  | none => .err (.reg i.a) s m
  | some av =>
    match setReg s.regs i.dst (f av) with
    | none => .err (.reg i.dst) s m
    | some r => .fall { s with regs := r } m stop clk

/-- Common shape of the conditional-jump arms `je` … `ja`: read the
target (dst register or immediate), then `reg a`, `reg b`; on a true
predicate set `pc` and return early, otherwise fall through. -/
def condStep (i : Inst) (s : CpuState) (m : Mem) (stop : Bool) (clk : Nat)
    (p : Nat → Nat → Bool) : ArmRes :=
  match (match i.imm with | some v => some v | none => getReg s.regs i.dst) with
  | none => .err (.reg i.dst) s m
  | some dv =>
    match getReg s.regs i.a with
    | none => .err (.reg i.a) s m
    | some av =>
      match getReg s.regs i.b with
      | none => .err (.reg i.b) s m
      | some bv =>
        if p av bv then .early { s with pc := dv } m stop clk
        else .fall s m stop clk

end ToyEmu

namespace ToyEmu

/-- The `nop` arm (mode 0, opcode 0): no effect. -/
def armNop (i : Inst) (s : CpuState) (m : Mem) (stop : Bool) (clk : Nat) : ArmRes :=
  match i.imm with
  | none => .fall s m stop clk
  | some _ => .err (.unsupported i) s m

/-- The `hlt` arm: set the stop flag and return without advancing. -/
def armHlt (i : Inst) (s : CpuState) (m : Mem) (clk : Nat) : ArmRes :=
  match i.imm with
  | none => .early s m true clk
  | some _ => .err (.unsupported i) s m

/-- The `pr` arm: print `mem.view(reg a .. reg b)` to stdout (output
not modelled; `view` returns `None` instead of panicking on an
inverted range). -/
def armPr (i : Inst) (s : CpuState) (m : Mem) (stop : Bool) (clk : Nat) : ArmRes :=
  match getReg s.regs i.a with
  | none => .err (.reg i.a) s m
  | some _ =>
    match getReg s.regs i.b with
    | none => .err (.reg i.b) s m
    | some _ => .fall s m stop clk

/-- The `epr` arm: `mem[low..high]` panics when `low > high`. -/
def armEpr (i : Inst) (s : CpuState) (m : Mem) (stop : Bool) (clk : Nat) : ArmRes :=
  match getReg s.regs i.a with
  | none => .err (.reg i.a) s m
  | some lo =>
    match getReg s.regs i.b with
    | none => .err (.reg i.b) s m
    | some hi => if lo ≤ hi then .fall s m stop clk else .panic

/-- The `tme` arm: write the four 32-bit limbs of the shuffled
timestamp through register indices `a`, `b` and the two high bytes of
the immediate (sequential `set_reg?` calls, partial on error). -/
def armTme (i : Inst) (s : CpuState) (m : Mem) (stop : Bool) (t clk : Nat) : ArmRes :=
  match i.imm with
  | none => .err (.unsupported i) s m
  | some im =>
    match setReg s.regs i.a (tmeWord t 0) with
    | none => .err (.reg i.a) s m
    | some r1 =>
      match setReg r1 i.b (tmeWord t 1) with
      | none => .err (.reg i.b) { s with regs := r1 } m
      | some r2 =>
        match setReg r2 (im / 16777216 % 256) (tmeWord t 2) with
        | none => .err (.reg (im / 16777216 % 256)) { s with regs := r2 } m
        | some r3 =>
          match setReg r3 (im / 65536 % 256) (tmeWord t 3) with
          | none => .err (.reg (im / 65536 % 256)) { s with regs := r3 } m
          | some r4 => .fall { s with regs := r4 } m stop clk

/-- The `rdpc` arm: `dst ← pc`. -/
def armRdpc (i : Inst) (s : CpuState) (m : Mem) (stop : Bool) (clk : Nat) : ArmRes :=
  match i.imm with
  | none =>
    match setReg s.regs i.dst s.pc with
    | none => .err (.reg i.dst) s m
    | some r => .fall { s with regs := r } m stop clk
  | some _ => .err (.unsupported i) s m

/-- The `kbrd` arm: `unimplemented!()` — a host panic. -/
def armKbrd (i : Inst) (s : CpuState) (m : Mem) : ArmRes :=
  match i.imm with
  | none => .panic
  | some _ => .err (.unsupported i) s m

/-- The `setgfx` arm: `gfx ← imm | reg a`. -/
def armSetgfx (i : Inst) (s : CpuState) (m : Mem) (stop : Bool) (clk : Nat) : ArmRes :=
  match i.imm with
  | some v => .fall { s with gfx := v } m stop clk
  | none =>
    match getReg s.regs i.a with
    | none => .err (.reg i.a) s m
    | some av => .fall { s with gfx := av } m stop clk

/-- The `slp` arm without the `steady-clock` feature: the operands
are read (`reg b` then `reg a`) and discarded. -/
def armSlp (i : Inst) (s : CpuState) (m : Mem) (stop : Bool) (clk : Nat) : ArmRes :=
  match i.imm with
  | some _ => .fall s m stop clk
  | none =>
    match getReg s.regs i.b with
    | none => .err (.reg i.b) s m
    | some _ =>
      match getReg s.regs i.a with
      | none => .err (.reg i.a) s m
      | some _ => .fall s m stop clk

/-- The `rdclk` arm: the high/low 32-bit halves of `clk` written to
registers `a` and `b`. -/
def armRdclk (i : Inst) (s : CpuState) (m : Mem) (stop : Bool) (clk : Nat) : ArmRes :=
  match setReg s.regs i.a (s.clk % U64MOD / U32MOD) with
  | none => .err (.reg i.a) s m
  | some r1 =>
    match setReg r1 i.b (s.clk % U32MOD) with
    | none => .err (.reg i.b) { s with regs := r1 } m
    | some r2 => .fall { s with regs := r2 } m stop clk

/-- Mode-0 (system/misc) arms of `Cpu::process`.  `t` is the current
Unix-epoch nanosecond timestamp consumed by `tme` (an oracle input);
`draw` is `unimplemented!()`, a host panic. -/
def sysArm (i : Inst) (s : CpuState) (m : Mem) (stop : Bool) (t clk : Nat) : ArmRes :=
  if i.op = 0x00 then armNop i s m stop clk
  else if i.op = 0x01 then armHlt i s m clk
  else if i.op = 0x02 then armPr i s m stop clk
  else if i.op = 0x03 then armEpr i s m stop clk
  else if i.op = 0x04 then armTme i s m stop t clk
  else if i.op = 0x05 then armRdpc i s m stop clk
  else if i.op = 0x06 then armKbrd i s m
  else if i.op = 0x07 then armSetgfx i s m stop clk
  else if i.op = 0x08 then .panic
  else if i.op = 0x09 then armSlp i s m stop clk
  else if i.op = 0x0a then armRdclk i s m stop clk
  else .err (.unsupported i) s m

/-- Mode-1 (ALU) arms. -/
def aluDispatch (i : Inst) (s : CpuState) (m : Mem) (stop : Bool) (clk : Nat) : ArmRes :=
  if i.op = 0x00 then aluStep i s m stop clk (fun a b => .val (4294967295 - (a &&& b)))
  else if i.op = 0x01 then aluStep i s m stop clk (fun a b => .val (a ||| b))
  else if i.op = 0x02 then aluStep i s m stop clk (fun a b => .val (a &&& b))
  else if i.op = 0x03 then aluStep i s m stop clk (fun a b => .val (4294967295 - (a ||| b)))
  else if i.op = 0x04 then aluStep i s m stop clk (fun a b => .val (wrap32 (a + b)))
  else if i.op = 0x05 then aluStep i s m stop clk (fun a b => .val (wsub a b))
  else if i.op = 0x06 then aluStep i s m stop clk (fun a b => .val (a ^^^ b))
  else if i.op = 0x07 then aluStep i s m stop clk (fun a b => .val (wrap32 (a * 2 ^ (b % 32))))
  else if i.op = 0x08 then aluStep i s m stop clk (fun a b => .val (a / 2 ^ (b % 32)))
  else if i.op = 0x09 then aluStep i s m stop clk (fun a b => .val (wrap32 (a * b)))
  else if i.op = 0x0a then
    aluStep i s m stop clk (fun a b => .val (ofInt32 (toInt32 a * toInt32 b)))
  else if i.op = 0x0b then
    aluStep i s m stop clk (fun a b =>
      if a ≠ 0 then (if b = 0 then .panic else .val (a / b)) else .val 0)
  else if i.op = 0x0c then
    aluStep i s m stop clk (fun a b =>
      if toInt32 a ≠ 0 then
        (if toInt32 b = 0 then .panic
          else .val (ofInt32 (Int.tdiv (toInt32 a) (toInt32 b))))
      else .val 0)
  else if i.op = 0x0d then
    aluStep i s m stop clk (fun a b => if b = 0 then .panic else .val (a % b))
  else if i.op = 0x0e then
    aluStep i s m stop clk (fun a b =>
      if toInt32 b = 0 then .panic
      else .val (ofInt32 (Int.tmod (toInt32 a) (toInt32 b))))
  else if i.op = 0x0f then movStep i s m stop clk
  else if i.op = 0x10 then incDecStep i s m stop clk (fun a => wrap32 (a + 1))
  else if i.op = 0x11 then incDecStep i s m stop clk (fun a => wsub a 1)
  else if i.op = 0x12 then aluStep i s m stop clk (fun a b => .val (if a = b then 1 else 0))
  else if i.op = 0x13 then aluStep i s m stop clk (fun a b => .val (if a = b then 0 else 1))
  else if i.op = 0x14 then
    aluStep i s m stop clk (fun a b => .val (if toInt32 a < toInt32 b then 1 else 0))
  else if i.op = 0x15 then
    aluStep i s m stop clk (fun a b => .val (if toInt32 a ≤ toInt32 b then 1 else 0))
  else if i.op = 0x16 then
    aluStep i s m stop clk (fun a b => .val (if toInt32 b < toInt32 a then 1 else 0))
  else if i.op = 0x17 then
    aluStep i s m stop clk (fun a b => .val (if toInt32 b ≤ toInt32 a then 1 else 0))
  else if i.op = 0x18 then
    aluStep i s m stop clk (fun a b => .val (ofInt32 (Int.fdiv (toInt32 a) (2 ^ (b % 32)))))
  else .err (.unsupported i) s m

/-- Mode-2 (conditional jump) arms. -/
def condDispatch (i : Inst) (s : CpuState) (m : Mem) (stop : Bool) (clk : Nat) : ArmRes :=
  if i.op = 0x00 then
    match i.imm with
    | some v => .early { s with pc := v } m stop clk
    | none =>
      match getReg s.regs i.dst with
      | none => .err (.reg i.dst) s m
      | some dv => .early { s with pc := dv } m stop clk
  else if i.op = 0x01 then condStep i s m stop clk (fun a b => a == b)
  else if i.op = 0x02 then condStep i s m stop clk (fun a b => a != b)
  else if i.op = 0x03 then
    condStep i s m stop clk (fun a b => decide (toInt32 a < toInt32 b))
  else if i.op = 0x04 then
    condStep i s m stop clk (fun a b => decide (toInt32 b ≤ toInt32 a))
  else if i.op = 0x05 then
    condStep i s m stop clk (fun a b => decide (toInt32 a ≤ toInt32 b))
  else if i.op = 0x06 then
    condStep i s m stop clk (fun a b => decide (toInt32 b < toInt32 a))
  else if i.op = 0x07 then condStep i s m stop clk (fun a b => decide (a < b))
  else if i.op = 0x08 then condStep i s m stop clk (fun a b => decide (b ≤ a))
  else if i.op = 0x09 then condStep i s m stop clk (fun a b => decide (a ≤ b))
  else if i.op = 0x0a then condStep i s m stop clk (fun a b => decide (b < a))
  else .err (.unsupported i) s m

/-- The `push` arm: read `reg a`, wrap `sp` down by 4, then write the
value big-endian through the slice `mem[sp..]` (when `sp` wrapped
above the old value) or `mem[sp..old_sp]`; `copy_from_slice` panics
unless the slice is exactly 4 bytes. -/
def armPush (i : Inst) (s : CpuState) (m : Mem) (stop : Bool) : ArmRes :=
  match getReg s.regs i.a with
  | none => .err (.reg i.a) s m
  | some av =>
    let oldSp := s.regs 2
    let sp := wsub oldSp 4
    let s1 : CpuState := { s with regs := updf s.regs 2 sp }
    if oldSp < sp then
      if U32MOD - sp = 4 then .fall s1 (store4BE m sp av) stop 2 else .panic
    else
      if oldSp - sp = 4 then .fall s1 (store4BE m sp av) stop 2 else .panic

/-- The `pop` arm: read 4 bytes big-endian at `[sp]` (the `sp + 4`
slice bound panics when it overflows 32 bits), bump `sp`, then
`set_reg dst`. -/
def armPop (i : Inst) (s : CpuState) (m : Mem) (stop : Bool) : ArmRes :=
  if s.regs 2 + 4 < U32MOD then
    match setReg (updf s.regs 2 (wrap32 (s.regs 2 + 4))) i.dst (read4BE m (s.regs 2)) with
    | none => .err (.reg i.dst) { s with regs := updf s.regs 2 (wrap32 (s.regs 2 + 4)) } m
    | some r2 => .fall { s with regs := r2 } m stop 2
  else .panic

/-- The `call` arm: push the old `ra` (the `mem[sp..old_sp]` slice
panics when `sp` wrapped), set `ra ← pc + (4|8)` and jump. -/
def armCall (i : Inst) (s : CpuState) (m : Mem) (stop : Bool) : ArmRes :=
  let oldSp := s.regs 2
  let sp := wsub oldSp 4
  if sp ≤ oldSp then
    if oldSp - sp = 4 then
      match (match i.imm with
             | some v => some v
             | none => getReg (updf s.regs 2 sp) i.a) with
      | none => .err (.reg i.a) { s with regs := updf s.regs 2 sp } (store4BE m sp (s.regs 1))
      | some jmp =>
        .early
          { s with
            regs := updf (updf s.regs 2 sp) 1 (wrap32 (s.pc + (if i.imm.isSome then 8 else 4))),
            pc := jmp }
          (store4BE m sp (s.regs 1)) stop 3
    else .panic
  else .panic

/-- The `ret` arm: `pc ← ra`, then pop the saved `ra` (the slice
bound panics when `sp + 4` overflows). -/
def armRet (i : Inst) (s : CpuState) (m : Mem) (stop : Bool) : ArmRes :=
  if s.regs 2 + 4 < U32MOD then
    .early
      { s with
        regs := updf (updf s.regs 2 (wrap32 (s.regs 2 + 4))) 1 (read4BE m (s.regs 2)),
        pc := s.regs 1 }
      m stop 2
  else .panic

/-- Mode-3 (stack) arms. -/
def stackArm (i : Inst) (s : CpuState) (m : Mem) (stop : Bool) (clk : Nat) : ArmRes :=
  if i.op = 0x00 then armPush i s m stop
  else if i.op = 0x01 then armPop i s m stop
  else if i.op = 0x02 then armCall i s m stop
  else if i.op = 0x03 then armRet i s m stop
  else .err (.unsupported i) s m

/-- The full `match` of `Cpu::process` (the final catch-all arm is
`UnsupportedInst`). -/
def processArms (i : Inst) (s : CpuState) (m : Mem) (stop : Bool) (t clk : Nat) : ArmRes :=
  if i.mode = 0 then sysArm i s m stop t clk
  else if i.mode = 1 then aluDispatch i s m stop clk
  else if i.mode = 2 then condDispatch i s m stop clk
  else if i.mode = 3 then stackArm i s m stop clk
  else .err (.unsupported i) s m

/-- Encoded width of an instruction: 8 bytes with an immediate, else 4. -/
def instWidth (i : Inst) : Nat := if i.imm.isSome then 8 else 4

/-- The trailing `self.pc += if inst.imm.is_some() { 8 } else { 4 }`. -/
def advancePc (i : Inst) (s : CpuState) : CpuState :=
  { s with pc := wrap32 (s.pc + instWidth i) }

/-- `Cpu::process(inst, mem, stop, clk)`: run the matching arm, then
advance `pc` unless the arm returned early. -/
def process (i : Inst) (s : CpuState) (m : Mem) (stop : Bool) (t clk : Nat) : Step :=
  match processArms i s m stop t clk with
  | .fall s' m' stop' clk' => .ok (advancePc i s') m' stop' clk'
  | .early s' m' stop' clk' => .ok s' m' stop' clk'
  | .err e s' m' => .err e s' m'
  | .panic => .panic

/-- Projection: did the step succeed? -/
def Step.isOk : Step → Bool
  | .ok _ _ _ _ => true
  | _ => false

/-- Projection: register `r` of the post-state of a successful step. -/
def Step.reg : Step → Nat → Nat
  | .ok s _ _ _, r => s.regs r
  | _, _ => 0

/-- Projection: `pc` of the post-state of a successful step. -/
def Step.pcOf : Step → Nat
  | .ok s _ _ _ => s.pc
  | _ => 0

/-- Projection: byte `a` of the post-memory of a successful step. -/
def Step.memAt : Step → Nat → Nat
  | .ok _ m _ _, a => m a
  | _, _ => 0

/-- Projection: the cycle accumulator of a successful step. -/
def Step.clkOf : Step → Nat
  | .ok _ _ _ c => c
  | _ => 0

end ToyEmu

namespace ToyEmu

/-- Register file for the C2 scenario: `t0` (index 5) holds 99, the
dividend register `t1` (6) and divisor register `t2` (7) hold 0. -/
def regsC2 : Nat → Nat := fun j => if j = 5 then 99 else 0

/-- `rem t0, t1, t2` — mode 1, opcode 0x0d, dst 5, a 6, b 7. -/
def remInstC2 : Inst := ⟨1, 5, 0x0d, 6, 7, none⟩

/-- `irem t0, t1, t2` — mode 1, opcode 0x0e. -/
def iremInstC2 : Inst := ⟨1, 5, 0x0e, 6, 7, none⟩

/-- `div t0, t1, t2` — mode 1, opcode 0x0b. -/
def divInstC2 : Inst := ⟨1, 5, 0x0b, 6, 7, none⟩

/-- `idiv t0, t1, t2` — mode 1, opcode 0x0c. -/
def idivInstC2 : Inst := ⟨1, 5, 0x0c, 6, 7, none⟩

/-- C2 (code_bug evidence): with a zero dividend *and* a zero divisor,
`div` and `idiv` succeed and write 0 into dst (their arms guard on
`a != 0` before dividing), but `rem` and `irem` compute `a % b`
unguarded and hit the host's division-by-zero panic instead of
writing 0.  All four executed here with `reg a = 0`, `reg b = 0`. -/
theorem c2_rem_zero_dividend_zero_divisor_panics :
    process remInstC2 ⟨regsC2, 0, 0, 0⟩ memZero false 0 1 = .panic
    ∧ process iremInstC2 ⟨regsC2, 0, 0, 0⟩ memZero false 0 1 = .panic
    ∧ Step.isOk (process divInstC2 ⟨regsC2, 0, 0, 0⟩ memZero false 0 1) = true
    ∧ Step.reg (process divInstC2 ⟨regsC2, 0, 0, 0⟩ memZero false 0 1) 5 = 0
    ∧ Step.isOk (process idivInstC2 ⟨regsC2, 0, 0, 0⟩ memZero false 0 1) = true
    ∧ Step.reg (process idivInstC2 ⟨regsC2, 0, 0, 0⟩ memZero false 0 1) 5 = 0 := by
  refine ⟨rfl, rfl, rfl, rfl, rfl, rfl⟩

/-- The state effect of a sequence of `set_reg` calls: a failed call
(index `≥ 32`) leaves the file unchanged, exactly as the erroring
`set_reg` does before propagating. -/
def applyRegOps (regs : Nat → Nat) : List (Nat × Nat) → (Nat → Nat)
  | [] => regs
  | (r, v) :: rest =>
      applyRegOps (match setReg regs r v with | some r' => r' | none => regs) rest

theorem setReg_preserves_zero (regs : Nat → Nat) (r v : Nat) (r' : Nat → Nat)
    (h : setReg regs r v = some r') : r' 0 = regs 0 := by
  unfold setReg at h
  split at h
  · cases h; rfl
  · split at h
    · cases h
      unfold updf
      have hne : (0 : Nat) ≠ r := by omega
      simp [hne]
    · cases h

/-- C8: register 0 (`zr`) always reads as zero and silently ignores
writes: `set_reg(0, v)` returns success leaving the whole file
unchanged, and after any sequence of `set_reg` operations starting
from `Registers::default()`, `get_reg(0)` returns 0. -/
theorem c8_zero_register (regs : Nat → Nat) (v : Nat) (ops : List (Nat × Nat)) :
    setReg regs 0 v = some regs
    ∧ getReg (applyRegOps defaultRegs ops) 0 = some 0 := by
  constructor
  · rfl
  · have inv : ∀ (l : List (Nat × Nat)) (rg : Nat → Nat), rg 0 = 0 →
        (applyRegOps rg l) 0 = 0 := by
      intro l
      induction l with
      | nil => intro rg h; exact h
      | cons p rest ih =>
          intro rg h
          show applyRegOps _ rest 0 = 0
          apply ih
          rcases hset : setReg rg p.1 p.2 with _ | r'
          · simp [hset, h]
          · simp only [hset]
            rw [setReg_preserves_zero rg p.1 p.2 r' hset]
            exact h
    unfold getReg
    rw [if_pos (by omega)]
    rw [inv ops defaultRegs (by rfl)]

end ToyEmu

namespace ToyEmu

/-- A `push {reg a}` instruction record (mode 3, opcode 0). -/
def pushInst (a : Nat) : Inst := ⟨3, 0, 0, a, 0, none⟩

/-- A `pop {reg dst}` instruction record (mode 3, opcode 1). -/
def popInst (dst : Nat) : Inst := ⟨3, dst, 1, 0, 0, none⟩

theorem wsub4_of_ge (sp : Nat) (h4 : 4 ≤ sp) (hsp : sp < U32MOD) :
    wsub sp 4 = sp - 4 := by
  unfold wsub U32MOD
  unfold U32MOD at hsp
  omega

/-- Behaviour of the push arm when it does not panic: `sp ← sp − 4`
wrapping, `reg a` stored big-endian at the new `sp`, cycles 2. -/
theorem push_ok (s : CpuState) (m : Mem) (stop : Bool) (t clk a : Nat)
    (ha : a < 32) (hsp : s.regs 2 < U32MOD) (hcase : s.regs 2 = 0 ∨ 4 ≤ s.regs 2) :
    process (pushInst a) s m stop t clk =
      .ok (advancePc (pushInst a) { s with regs := updf s.regs 2 (wsub (s.regs 2) 4) })
        (store4BE m (wsub (s.regs 2) 4) (s.regs a)) stop 2 := by
  unfold process processArms pushInst
  simp only [reduceIte]
  unfold stackArm armPush
  simp only [reduceIte, getReg, ha, if_pos]
  rcases hcase with h0 | h4
  · rw [h0]
    have hw : wsub 0 4 = 4294967292 := by unfold wsub U32MOD; omega
    rw [hw]
    norm_num [U32MOD]
  · have hw := wsub4_of_ge (s.regs 2) h4 hsp
    rw [hw]
    have hlt : ¬ (s.regs 2 < s.regs 2 - 4) := by omega
    rw [if_neg hlt]
    have hd : s.regs 2 - (s.regs 2 - 4) = 4 := by omega
    rw [if_pos hd]
    simp

/-- The push arm panics when the old `sp` is 1, 2 or 3: the wrapped
slice `mem[sp..]` is shorter than the 4 bytes `copy_from_slice`
demands. -/
theorem push_panics (s : CpuState) (m : Mem) (stop : Bool) (t clk a : Nat)
    (ha : a < 32) (hcase : s.regs 2 = 1 ∨ s.regs 2 = 2 ∨ s.regs 2 = 3) :
    process (pushInst a) s m stop t clk = .panic := by
  unfold process processArms pushInst
  simp only [reduceIte]
  unfold stackArm armPush
  simp only [reduceIte, getReg, ha, if_pos]
  have hw : wsub (s.regs 2) 4 = s.regs 2 + 4294967292 := by
    unfold wsub U32MOD
    omega
  rw [hw]
  have hlt : s.regs 2 < s.regs 2 + 4294967292 := by omega
  rw [if_pos hlt]
  have hne : ¬ (U32MOD - (s.regs 2 + 4294967292) = 4) := by
    unfold U32MOD
    omega
  rw [if_neg hne]
  simp

/-- Behaviour of the pop arm when `sp + 4` does not overflow. -/
theorem pop_ok (s : CpuState) (m : Mem) (stop : Bool) (t clk dst : Nat)
    (hdst : dst < 32) (hsp : s.regs 2 + 4 < U32MOD) :
    process (popInst dst) s m stop t clk =
      .ok (advancePc (popInst dst)
        { s with regs :=
            if dst = 0 then updf s.regs 2 (wrap32 (s.regs 2 + 4))
            else updf (updf s.regs 2 (wrap32 (s.regs 2 + 4))) dst (read4BE m (s.regs 2)) })
        m stop 2 := by
  unfold process processArms popInst
  simp only [reduceIte]
  unfold stackArm armPop
  simp only [reduceIte]
  rw [if_pos hsp]
  unfold setReg
  by_cases h0 : dst = 0
  · simp only [h0, reduceIte]
    simp
  · rw [if_neg h0, if_pos hdst, if_neg h0]
    simp

/-- The pop arm panics when `sp + 4` overflows 32 bits. -/
theorem pop_panics (s : CpuState) (m : Mem) (stop : Bool) (t clk dst : Nat)
    (hsp : U32MOD ≤ s.regs 2 + 4) :
    process (popInst dst) s m stop t clk = .panic := by
  have hcond : ¬ (s.regs 2 + 4 < U32MOD) := by omega
  unfold process processArms popInst stackArm armPop
  norm_num [hcond]

end ToyEmu

namespace ToyEmu

/-- Register file for the C5 counter-scenario: `t0` (index 5) holds
`0xAABBCCDD`, every other register — including `sp` — is 0. -/
def regsC5 : Nat → Nat := fun j => if j = 5 then 0xAABBCCDD else 0

/-- C5 (counterexample): `push t0` executed with `sp = 0` — where
`sp − 4` wraps past 0 — does *not* fail with `StackOverflow(pc)`:
it succeeds, leaving `sp = 0xFFFFFFFC` and cycles 2.  (`CpuError` has
no stack-overflow variant at all.) -/
theorem c5_push_at_sp_zero_succeeds :
    Step.isOk (process (pushInst 5) ⟨regsC5, 0, 0, 0⟩ memZero false 0 1) = true
    ∧ Step.reg (process (pushInst 5) ⟨regsC5, 0, 0, 0⟩ memZero false 0 1) 2 = 4294967292
    ∧ Step.clkOf (process (pushInst 5) ⟨regsC5, 0, 0, 0⟩ memZero false 0 1) = 2 := by
  refine ⟨rfl, rfl, rfl⟩

/-- C5 (amended): `Push` never returns `StackOverflow`: it sets
`sp ← sp − 4` wrapping and stores `reg a` big-endian at the new `sp`
with cycles 2 whenever the old `sp` is 0 or ≥ 4, and panics in the
host when the old `sp` is 1, 2 or 3.  `Pop` never returns
`StackUnderflow`: when `sp + 4` overflows 32 bits it panics in the
host; otherwise it reads the 4 bytes at `[sp]` into dst (writes to
`zr` being discarded), sets `sp ← sp + 4` and costs cycles 2. -/
theorem c5_push_pop_amended (s : CpuState) (m : Mem) (stop : Bool) (t clk a dst : Nat)
    (ha : a < 32) (hdst : dst < 32) (hsp : s.regs 2 < U32MOD) :
    ((s.regs 2 = 0 ∨ 4 ≤ s.regs 2) →
      process (pushInst a) s m stop t clk =
        .ok (advancePc (pushInst a) { s with regs := updf s.regs 2 (wsub (s.regs 2) 4) })
          (store4BE m (wsub (s.regs 2) 4) (s.regs a)) stop 2)
    ∧ ((s.regs 2 = 1 ∨ s.regs 2 = 2 ∨ s.regs 2 = 3) →
        process (pushInst a) s m stop t clk = .panic)
    ∧ (s.regs 2 + 4 < U32MOD →
        process (popInst dst) s m stop t clk =
          .ok (advancePc (popInst dst)
            { s with regs :=
                (if dst = 0 then updf s.regs 2 (wrap32 (s.regs 2 + 4))
                  else updf (updf s.regs 2 (wrap32 (s.regs 2 + 4))) dst
                    (read4BE m (s.regs 2))) })
            m stop 2)
    ∧ (U32MOD ≤ s.regs 2 + 4 →
        process (popInst dst) s m stop t clk = .panic) := by
  refine ⟨?_, ?_, ?_, ?_⟩
  · intro hcase
    exact push_ok s m stop t clk a ha hsp hcase
  · intro hcase
    exact push_panics s m stop t clk a ha hcase
  · intro hcase
    exact pop_ok s m stop t clk dst hdst hcase
  · intro hcase
    exact pop_panics s m stop t clk dst hcase

/-- Witness for the amended C5 at a concrete state: `sp = 100`,
pushing register 5 and popping into register 6. -/
theorem c5_push_pop_amended_witness :
    (5 : Nat) < 32 ∧ (6 : Nat) < 32 ∧ updf regsC5 2 100 2 < U32MOD ∧
    process (pushInst 5) ⟨updf regsC5 2 100, 0, 0, 0⟩ memZero false 0 1 =
      .ok (advancePc (pushInst 5)
          { regs := updf (updf regsC5 2 100) 2 (wsub ((updf regsC5 2 100) 2) 4),
            gfx := 0, pc := 0, clk := 0 })
        (store4BE memZero (wsub ((updf regsC5 2 100) 2) 4) ((updf regsC5 2 100) 5))
        false 2 := by
  refine ⟨by omega, by omega, by norm_num [updf, regsC5, U32MOD], ?_⟩
  exact (c5_push_pop_amended ⟨updf regsC5 2 100, 0, 0, 0⟩ memZero false 0 1 5 6
    (by omega) (by omega) (by norm_num [updf, regsC5, U32MOD])).1
    (by norm_num [updf])

end ToyEmu

namespace ToyEmu

/-- The branch-taken predicate of each mode-2 arm, evaluated on the
register file (the source compares the fetched `reg a`/`reg b`
values). -/
def takenCond (i : Inst) (s : CpuState) : Bool :=
  if i.op = 0x00 then true
  else if i.op = 0x01 then s.regs i.a == s.regs i.b
  else if i.op = 0x02 then s.regs i.a != s.regs i.b
  else if i.op = 0x03 then decide (toInt32 (s.regs i.a) < toInt32 (s.regs i.b))
  else if i.op = 0x04 then decide (toInt32 (s.regs i.b) ≤ toInt32 (s.regs i.a))
  else if i.op = 0x05 then decide (toInt32 (s.regs i.a) ≤ toInt32 (s.regs i.b))
  else if i.op = 0x06 then decide (toInt32 (s.regs i.b) < toInt32 (s.regs i.a))
  else if i.op = 0x07 then decide (s.regs i.a < s.regs i.b)
  else if i.op = 0x08 then decide (s.regs i.b ≤ s.regs i.a)
  else if i.op = 0x09 then decide (s.regs i.a ≤ s.regs i.b)
  else if i.op = 0x0a then decide (s.regs i.b < s.regs i.a)
  else false

/-- The jump target of a mode-2 arm: the immediate, or the value of
the `dst` register. -/
def jmpTarget (i : Inst) (s : CpuState) : Nat :=
  match i.imm with
  | some v => v
  | none => s.regs i.dst

/-- The instructions that write `pc` themselves: `hlt`, a taken
mode-2 jump, `call` and `ret`. -/
def writesPc (i : Inst) (s : CpuState) : Prop :=
  (i.mode = 0 ∧ i.op = 1 ∧ i.imm = none)
  ∨ (i.mode = 2 ∧ takenCond i s = true)
  ∨ (i.mode = 3 ∧ (i.op = 2 ∨ i.op = 3))

theorem aluStep_fall_pc {i : Inst} {s : CpuState} {m : Mem} {stop : Bool} {clk : Nat}
    {f : Nat → Nat → AluOut} {s2 m2 st2 c2}
    (h : aluStep i s m stop clk f = .fall s2 m2 st2 c2) : s2.pc = s.pc := by
  unfold aluStep at h
  repeat' split at h
  all_goals cases h
  all_goals rfl

theorem aluStep_not_early {i : Inst} {s : CpuState} {m : Mem} {stop : Bool} {clk : Nat}
    {f : Nat → Nat → AluOut} {s2 m2 st2 c2}
    (h : aluStep i s m stop clk f = .early s2 m2 st2 c2) : False := by
  unfold aluStep at h
  repeat' split at h
  all_goals cases h

theorem movStep_fall_pc {i : Inst} {s : CpuState} {m : Mem} {stop : Bool} {clk : Nat}
    {s2 m2 st2 c2}
    (h : movStep i s m stop clk = .fall s2 m2 st2 c2) : s2.pc = s.pc := by
  unfold movStep at h
  repeat' split at h
  all_goals cases h
  all_goals rfl

theorem movStep_not_early {i : Inst} {s : CpuState} {m : Mem} {stop : Bool} {clk : Nat}
    {s2 m2 st2 c2}
    (h : movStep i s m stop clk = .early s2 m2 st2 c2) : False := by
  unfold movStep at h
  repeat' split at h
  all_goals cases h

theorem incDecStep_fall_pc {i : Inst} {s : CpuState} {m : Mem} {stop : Bool} {clk : Nat}
    {f : Nat → Nat} {s2 m2 st2 c2}
    (h : incDecStep i s m stop clk f = .fall s2 m2 st2 c2) : s2.pc = s.pc := by
  unfold incDecStep at h
  repeat' split at h
  all_goals cases h
  all_goals rfl

theorem incDecStep_not_early {i : Inst} {s : CpuState} {m : Mem} {stop : Bool} {clk : Nat}
    {f : Nat → Nat} {s2 m2 st2 c2}
    (h : incDecStep i s m stop clk f = .early s2 m2 st2 c2) : False := by
  unfold incDecStep at h
  repeat' split at h
  all_goals cases h

theorem getReg_some_eq {regs : Nat → Nat} {r v : Nat}
    (h : getReg regs r = some v) : v = regs r := by
  unfold getReg at h
  split at h
  · cases h; rfl
  · cases h

theorem condStep_fall {i : Inst} {s : CpuState} {m : Mem} {stop : Bool} {clk : Nat}
    {p : Nat → Nat → Bool} {s2 m2 st2 c2}
    (h : condStep i s m stop clk p = .fall s2 m2 st2 c2) :
    s2 = s ∧ p (s.regs i.a) (s.regs i.b) = false := by
  unfold condStep at h
  rcases hdv : (match i.imm with | some v => some v | none => getReg s.regs i.dst)
    with _ | dv
  · rw [hdv] at h; cases h
  · rw [hdv] at h
    dsimp only [] at h
    rcases ha : getReg s.regs i.a with _ | av
    · rw [ha] at h; cases h
    · rw [ha] at h
      dsimp only [] at h
      rcases hb : getReg s.regs i.b with _ | bv
      · rw [hb] at h; cases h
      · rw [hb] at h
        dsimp only [] at h
        by_cases hp : p av bv = true
        · rw [if_pos hp] at h; cases h
        · rw [if_neg hp] at h
          cases h
          rw [getReg_some_eq ha, getReg_some_eq hb] at hp
          exact ⟨rfl, by simpa using hp⟩

theorem condStep_early {i : Inst} {s : CpuState} {m : Mem} {stop : Bool} {clk : Nat}
    {p : Nat → Nat → Bool} {s2 m2 st2 c2}
    (h : condStep i s m stop clk p = .early s2 m2 st2 c2) :
    p (s.regs i.a) (s.regs i.b) = true ∧ s2.pc = jmpTarget i s := by
  unfold condStep at h
  rcases hdv : (match i.imm with | some v => some v | none => getReg s.regs i.dst)
    with _ | dv
  · rw [hdv] at h; cases h
  · rw [hdv] at h
    dsimp only [] at h
    rcases ha : getReg s.regs i.a with _ | av
    · rw [ha] at h; cases h
    · rw [ha] at h
      dsimp only [] at h
      rcases hb : getReg s.regs i.b with _ | bv
      · rw [hb] at h; cases h
      · rw [hb] at h
        dsimp only [] at h
        by_cases hp : p av bv = true
        · rw [if_pos hp] at h
          cases h
          rw [getReg_some_eq ha, getReg_some_eq hb] at hp
          refine ⟨hp, ?_⟩
          show dv = jmpTarget i s
          unfold jmpTarget
          rcases him : i.imm with _ | v
          · rw [him] at hdv
            exact (getReg_some_eq hdv).symm ▸ rfl
          · rw [him] at hdv
            cases hdv
            rfl
        · rw [if_neg hp] at h; cases h

end ToyEmu

namespace ToyEmu

theorem armNop_cases {i : Inst} {s : CpuState} {m : Mem} {stop : Bool} {clk : Nat}
    {s2 m2 st2 c2} :
    (armNop i s m stop clk = .fall s2 m2 st2 c2 → s2.pc = s.pc)
    ∧ (armNop i s m stop clk = .early s2 m2 st2 c2 → False) := by
  constructor <;> intro h <;> unfold armNop at h <;> repeat' split at h
  all_goals cases h
  all_goals rfl

theorem armHlt_cases {i : Inst} {s : CpuState} {m : Mem} {clk : Nat}
    {s2 m2 st2 c2} :
    (armHlt i s m clk = .fall s2 m2 st2 c2 → False)
    ∧ (armHlt i s m clk = .early s2 m2 st2 c2 → i.imm = none) := by
  constructor <;> intro h <;> unfold armHlt at h <;> repeat' split at h
  all_goals cases h
  all_goals simp_all

theorem armPr_cases {i : Inst} {s : CpuState} {m : Mem} {stop : Bool} {clk : Nat}
    {s2 m2 st2 c2} :
    (armPr i s m stop clk = .fall s2 m2 st2 c2 → s2.pc = s.pc)
    ∧ (armPr i s m stop clk = .early s2 m2 st2 c2 → False) := by
  constructor <;> intro h <;> unfold armPr at h <;> repeat' split at h
  all_goals cases h
  all_goals rfl

theorem armEpr_cases {i : Inst} {s : CpuState} {m : Mem} {stop : Bool} {clk : Nat}
    {s2 m2 st2 c2} :
    (armEpr i s m stop clk = .fall s2 m2 st2 c2 → s2.pc = s.pc)
    ∧ (armEpr i s m stop clk = .early s2 m2 st2 c2 → False) := by
  constructor <;> intro h <;> unfold armEpr at h <;> repeat' split at h
  all_goals cases h
  all_goals rfl

theorem armTme_cases {i : Inst} {s : CpuState} {m : Mem} {stop : Bool} {t clk : Nat}
    {s2 m2 st2 c2} :
    (armTme i s m stop t clk = .fall s2 m2 st2 c2 → s2.pc = s.pc)
    ∧ (armTme i s m stop t clk = .early s2 m2 st2 c2 → False) := by
  constructor <;> intro h <;> unfold armTme at h <;> repeat' split at h
  all_goals cases h
  all_goals rfl

theorem armRdpc_cases {i : Inst} {s : CpuState} {m : Mem} {stop : Bool} {clk : Nat}
    {s2 m2 st2 c2} :
    (armRdpc i s m stop clk = .fall s2 m2 st2 c2 → s2.pc = s.pc)
    ∧ (armRdpc i s m stop clk = .early s2 m2 st2 c2 → False) := by
  constructor <;> intro h <;> unfold armRdpc at h <;> repeat' split at h
  all_goals cases h
  all_goals rfl

theorem armKbrd_cases {i : Inst} {s : CpuState} {m : Mem}
    {s2 m2 st2 c2} :
    (armKbrd i s m = .fall s2 m2 st2 c2 → False)
    ∧ (armKbrd i s m = .early s2 m2 st2 c2 → False) := by
  constructor <;> intro h <;> unfold armKbrd at h <;> repeat' split at h
  all_goals cases h

theorem armSetgfx_cases {i : Inst} {s : CpuState} {m : Mem} {stop : Bool} {clk : Nat}
    {s2 m2 st2 c2} :
    (armSetgfx i s m stop clk = .fall s2 m2 st2 c2 → s2.pc = s.pc)
    ∧ (armSetgfx i s m stop clk = .early s2 m2 st2 c2 → False) := by
  constructor <;> intro h <;> unfold armSetgfx at h <;> repeat' split at h
  all_goals cases h
  all_goals rfl

theorem armSlp_cases {i : Inst} {s : CpuState} {m : Mem} {stop : Bool} {clk : Nat}
    {s2 m2 st2 c2} :
    (armSlp i s m stop clk = .fall s2 m2 st2 c2 → s2.pc = s.pc)
    ∧ (armSlp i s m stop clk = .early s2 m2 st2 c2 → False) := by
  constructor <;> intro h <;> unfold armSlp at h <;> repeat' split at h
  all_goals cases h
  all_goals rfl

theorem armRdclk_cases {i : Inst} {s : CpuState} {m : Mem} {stop : Bool} {clk : Nat}
    {s2 m2 st2 c2} :
    (armRdclk i s m stop clk = .fall s2 m2 st2 c2 → s2.pc = s.pc)
    ∧ (armRdclk i s m stop clk = .early s2 m2 st2 c2 → False) := by
  constructor <;> intro h <;> unfold armRdclk at h <;> repeat' split at h
  all_goals cases h
  all_goals rfl

theorem armPush_cases {i : Inst} {s : CpuState} {m : Mem} {stop : Bool}
    {s2 m2 st2 c2} :
    (armPush i s m stop = .fall s2 m2 st2 c2 → s2.pc = s.pc)
    ∧ (armPush i s m stop = .early s2 m2 st2 c2 → False) := by
  constructor <;> intro h <;> unfold armPush at h <;>
    rcases ha : getReg s.regs i.a with _ | av <;> rw [ha] at h <;>
    dsimp only [] at h
  · cases h
  · by_cases h1 : s.regs 2 < wsub (s.regs 2) 4
    · rw [if_pos h1] at h
      by_cases h2 : U32MOD - wsub (s.regs 2) 4 = 4
      · rw [if_pos h2] at h; cases h; rfl
      · rw [if_neg h2] at h; cases h
    · rw [if_neg h1] at h
      by_cases h2 : s.regs 2 - wsub (s.regs 2) 4 = 4
      · rw [if_pos h2] at h; cases h; rfl
      · rw [if_neg h2] at h; cases h
  · cases h
  · by_cases h1 : s.regs 2 < wsub (s.regs 2) 4
    · rw [if_pos h1] at h
      by_cases h2 : U32MOD - wsub (s.regs 2) 4 = 4
      · rw [if_pos h2] at h; cases h
      · rw [if_neg h2] at h; cases h
    · rw [if_neg h1] at h
      by_cases h2 : s.regs 2 - wsub (s.regs 2) 4 = 4
      · rw [if_pos h2] at h; cases h
      · rw [if_neg h2] at h; cases h

theorem armPop_cases {i : Inst} {s : CpuState} {m : Mem} {stop : Bool}
    {s2 m2 st2 c2} :
    (armPop i s m stop = .fall s2 m2 st2 c2 → s2.pc = s.pc)
    ∧ (armPop i s m stop = .early s2 m2 st2 c2 → False) := by
  constructor <;> intro h <;> unfold armPop at h <;>
    by_cases h1 : s.regs 2 + 4 < U32MOD
  · rw [if_pos h1] at h
    rcases hs : setReg (updf s.regs 2 (wrap32 (s.regs 2 + 4))) i.dst (read4BE m (s.regs 2))
      with _ | r2 <;> rw [hs] at h
    · cases h
    · cases h; rfl
  · rw [if_neg h1] at h; cases h
  · rw [if_pos h1] at h
    rcases hs : setReg (updf s.regs 2 (wrap32 (s.regs 2 + 4))) i.dst (read4BE m (s.regs 2))
      with _ | r2 <;> rw [hs] at h
    · cases h
    · cases h
  · rw [if_neg h1] at h; cases h

theorem armCall_cases {i : Inst} {s : CpuState} {m : Mem} {stop : Bool}
    {s2 m2 st2 c2} :
    (armCall i s m stop = .fall s2 m2 st2 c2 → False)
    ∧ (armCall i s m stop = .early s2 m2 st2 c2 → True) := by
  refine ⟨?_, fun _ => trivial⟩
  intro h
  unfold armCall at h
  dsimp only [] at h
  by_cases h1 : wsub (s.regs 2) 4 ≤ s.regs 2
  · rw [if_pos h1] at h
    by_cases h2 : s.regs 2 - wsub (s.regs 2) 4 = 4
    · rw [if_pos h2] at h
      rcases hj : (match i.imm with
        | some v => some v
        | none => getReg (updf s.regs 2 (wsub (s.regs 2) 4)) i.a) with _ | jmp <;>
        rw [hj] at h <;> cases h
    · rw [if_neg h2] at h; cases h
  · rw [if_neg h1] at h; cases h

theorem armRet_cases {i : Inst} {s : CpuState} {m : Mem} {stop : Bool}
    {s2 m2 st2 c2} :
    (armRet i s m stop = .fall s2 m2 st2 c2 → False)
    ∧ (armRet i s m stop = .early s2 m2 st2 c2 → True) := by
  refine ⟨?_, fun _ => trivial⟩
  intro h
  unfold armRet at h
  by_cases h1 : s.regs 2 + 4 < U32MOD
  · rw [if_pos h1] at h; cases h
  · rw [if_neg h1] at h; cases h

theorem sysArm_fall_pc {i : Inst} {s : CpuState} {m : Mem} {stop : Bool} {t clk : Nat}
    {s2 m2 st2 c2}
    (h : sysArm i s m stop t clk = .fall s2 m2 st2 c2) : s2.pc = s.pc := by
  unfold sysArm at h
  by_cases h0 : i.op = 0
  · rw [if_pos h0] at h
    exact armNop_cases.1 h
  rw [if_neg h0] at h
  by_cases h1 : i.op = 1
  · rw [if_pos h1] at h
    exact (armHlt_cases.1 h).elim
  rw [if_neg h1] at h
  by_cases h2 : i.op = 2
  · rw [if_pos h2] at h
    exact armPr_cases.1 h
  rw [if_neg h2] at h
  by_cases h3 : i.op = 3
  · rw [if_pos h3] at h
    exact armEpr_cases.1 h
  rw [if_neg h3] at h
  by_cases h4 : i.op = 4
  · rw [if_pos h4] at h
    exact armTme_cases.1 h
  rw [if_neg h4] at h
  by_cases h5 : i.op = 5
  · rw [if_pos h5] at h
    exact armRdpc_cases.1 h
  rw [if_neg h5] at h
  by_cases h6 : i.op = 6
  · rw [if_pos h6] at h
    exact (armKbrd_cases.1 h).elim
  rw [if_neg h6] at h
  by_cases h7 : i.op = 7
  · rw [if_pos h7] at h
    exact armSetgfx_cases.1 h
  rw [if_neg h7] at h
  by_cases h8 : i.op = 8
  · rw [if_pos h8] at h
    cases h
  rw [if_neg h8] at h
  by_cases h9 : i.op = 9
  · rw [if_pos h9] at h
    exact armSlp_cases.1 h
  rw [if_neg h9] at h
  by_cases h10 : i.op = 10
  · rw [if_pos h10] at h
    exact armRdclk_cases.1 h
  rw [if_neg h10] at h
  cases h

theorem sysArm_early {i : Inst} {s : CpuState} {m : Mem} {stop : Bool} {t clk : Nat}
    {s2 m2 st2 c2}
    (h : sysArm i s m stop t clk = .early s2 m2 st2 c2) :
    i.op = 1 ∧ i.imm = none := by
  unfold sysArm at h
  by_cases h0 : i.op = 0
  · rw [if_pos h0] at h
    exact (armNop_cases.2 h).elim
  rw [if_neg h0] at h
  by_cases h1 : i.op = 1
  · rw [if_pos h1] at h
    exact ⟨h1, armHlt_cases.2 h⟩
  rw [if_neg h1] at h
  by_cases h2 : i.op = 2
  · rw [if_pos h2] at h
    exact (armPr_cases.2 h).elim
  rw [if_neg h2] at h
  by_cases h3 : i.op = 3
  · rw [if_pos h3] at h
    exact (armEpr_cases.2 h).elim
  rw [if_neg h3] at h
  by_cases h4 : i.op = 4
  · rw [if_pos h4] at h
    exact (armTme_cases.2 h).elim
  rw [if_neg h4] at h
  by_cases h5 : i.op = 5
  · rw [if_pos h5] at h
    exact (armRdpc_cases.2 h).elim
  rw [if_neg h5] at h
  by_cases h6 : i.op = 6
  · rw [if_pos h6] at h
    exact (armKbrd_cases.2 h).elim
  rw [if_neg h6] at h
  by_cases h7 : i.op = 7
  · rw [if_pos h7] at h
    exact (armSetgfx_cases.2 h).elim
  rw [if_neg h7] at h
  by_cases h8 : i.op = 8
  · rw [if_pos h8] at h
    cases h
  rw [if_neg h8] at h
  by_cases h9 : i.op = 9
  · rw [if_pos h9] at h
    exact (armSlp_cases.2 h).elim
  rw [if_neg h9] at h
  by_cases h10 : i.op = 10
  · rw [if_pos h10] at h
    exact (armRdclk_cases.2 h).elim
  rw [if_neg h10] at h
  cases h

theorem aluDispatch_fall_pc {i : Inst} {s : CpuState} {m : Mem} {stop : Bool} {clk : Nat}
    {s2 m2 st2 c2}
    (h : aluDispatch i s m stop clk = .fall s2 m2 st2 c2) : s2.pc = s.pc := by
  unfold aluDispatch at h
  by_cases h0 : i.op = 0
  · rw [if_pos h0] at h
    exact aluStep_fall_pc h
  rw [if_neg h0] at h
  by_cases h1 : i.op = 1
  · rw [if_pos h1] at h
    exact aluStep_fall_pc h
  rw [if_neg h1] at h
  by_cases h2 : i.op = 2
  · rw [if_pos h2] at h
    exact aluStep_fall_pc h
  rw [if_neg h2] at h
  by_cases h3 : i.op = 3
  · rw [if_pos h3] at h
    exact aluStep_fall_pc h
  rw [if_neg h3] at h
  by_cases h4 : i.op = 4
  · rw [if_pos h4] at h
    exact aluStep_fall_pc h
  rw [if_neg h4] at h
  by_cases h5 : i.op = 5
  · rw [if_pos h5] at h
    exact aluStep_fall_pc h
  rw [if_neg h5] at h
  by_cases h6 : i.op = 6
  · rw [if_pos h6] at h
    exact aluStep_fall_pc h
  rw [if_neg h6] at h
  by_cases h7 : i.op = 7
  · rw [if_pos h7] at h
    exact aluStep_fall_pc h
  rw [if_neg h7] at h
  by_cases h8 : i.op = 8
  · rw [if_pos h8] at h
    exact aluStep_fall_pc h
  rw [if_neg h8] at h
  by_cases h9 : i.op = 9
  · rw [if_pos h9] at h
    exact aluStep_fall_pc h
  rw [if_neg h9] at h
  by_cases h10 : i.op = 10
  · rw [if_pos h10] at h
    exact aluStep_fall_pc h
  rw [if_neg h10] at h
  by_cases h11 : i.op = 11
  · rw [if_pos h11] at h
    exact aluStep_fall_pc h
  rw [if_neg h11] at h
  by_cases h12 : i.op = 12
  · rw [if_pos h12] at h
    exact aluStep_fall_pc h
  rw [if_neg h12] at h
  by_cases h13 : i.op = 13
  · rw [if_pos h13] at h
    exact aluStep_fall_pc h
  rw [if_neg h13] at h
  by_cases h14 : i.op = 14
  · rw [if_pos h14] at h
    exact aluStep_fall_pc h
  rw [if_neg h14] at h
  by_cases h15 : i.op = 15
  · rw [if_pos h15] at h
    exact movStep_fall_pc h
  rw [if_neg h15] at h
  by_cases h16 : i.op = 16
  · rw [if_pos h16] at h
    exact incDecStep_fall_pc h
  rw [if_neg h16] at h
  by_cases h17 : i.op = 17
  · rw [if_pos h17] at h
    exact incDecStep_fall_pc h
  rw [if_neg h17] at h
  by_cases h18 : i.op = 18
  · rw [if_pos h18] at h
    exact aluStep_fall_pc h
  rw [if_neg h18] at h
  by_cases h19 : i.op = 19
  · rw [if_pos h19] at h
    exact aluStep_fall_pc h
  rw [if_neg h19] at h
  by_cases h20 : i.op = 20
  · rw [if_pos h20] at h
    exact aluStep_fall_pc h
  rw [if_neg h20] at h
  by_cases h21 : i.op = 21
  · rw [if_pos h21] at h
    exact aluStep_fall_pc h
  rw [if_neg h21] at h
  by_cases h22 : i.op = 22
  · rw [if_pos h22] at h
    exact aluStep_fall_pc h
  rw [if_neg h22] at h
  by_cases h23 : i.op = 23
  · rw [if_pos h23] at h
    exact aluStep_fall_pc h
  rw [if_neg h23] at h
  by_cases h24 : i.op = 24
  · rw [if_pos h24] at h
    exact aluStep_fall_pc h
  rw [if_neg h24] at h
  cases h

theorem aluDispatch_not_early {i : Inst} {s : CpuState} {m : Mem} {stop : Bool} {clk : Nat}
    {s2 m2 st2 c2}
    (h : aluDispatch i s m stop clk = .early s2 m2 st2 c2) : False := by
  unfold aluDispatch at h
  by_cases h0 : i.op = 0
  · rw [if_pos h0] at h
    exact (aluStep_not_early h).elim
  rw [if_neg h0] at h
  by_cases h1 : i.op = 1
  · rw [if_pos h1] at h
    exact (aluStep_not_early h).elim
  rw [if_neg h1] at h
  by_cases h2 : i.op = 2
  · rw [if_pos h2] at h
    exact (aluStep_not_early h).elim
  rw [if_neg h2] at h
  by_cases h3 : i.op = 3
  · rw [if_pos h3] at h
    exact (aluStep_not_early h).elim
  rw [if_neg h3] at h
  by_cases h4 : i.op = 4
  · rw [if_pos h4] at h
    exact (aluStep_not_early h).elim
  rw [if_neg h4] at h
  by_cases h5 : i.op = 5
  · rw [if_pos h5] at h
    exact (aluStep_not_early h).elim
  rw [if_neg h5] at h
  by_cases h6 : i.op = 6
  · rw [if_pos h6] at h
    exact (aluStep_not_early h).elim
  rw [if_neg h6] at h
  by_cases h7 : i.op = 7
  · rw [if_pos h7] at h
    exact (aluStep_not_early h).elim
  rw [if_neg h7] at h
  by_cases h8 : i.op = 8
  · rw [if_pos h8] at h
    exact (aluStep_not_early h).elim
  rw [if_neg h8] at h
  by_cases h9 : i.op = 9
  · rw [if_pos h9] at h
    exact (aluStep_not_early h).elim
  rw [if_neg h9] at h
  by_cases h10 : i.op = 10
  · rw [if_pos h10] at h
    exact (aluStep_not_early h).elim
  rw [if_neg h10] at h
  by_cases h11 : i.op = 11
  · rw [if_pos h11] at h
    exact (aluStep_not_early h).elim
  rw [if_neg h11] at h
  by_cases h12 : i.op = 12
  · rw [if_pos h12] at h
    exact (aluStep_not_early h).elim
  rw [if_neg h12] at h
  by_cases h13 : i.op = 13
  · rw [if_pos h13] at h
    exact (aluStep_not_early h).elim
  rw [if_neg h13] at h
  by_cases h14 : i.op = 14
  · rw [if_pos h14] at h
    exact (aluStep_not_early h).elim
  rw [if_neg h14] at h
  by_cases h15 : i.op = 15
  · rw [if_pos h15] at h
    exact (movStep_not_early h).elim
  rw [if_neg h15] at h
  by_cases h16 : i.op = 16
  · rw [if_pos h16] at h
    exact (incDecStep_not_early h).elim
  rw [if_neg h16] at h
  by_cases h17 : i.op = 17
  · rw [if_pos h17] at h
    exact (incDecStep_not_early h).elim
  rw [if_neg h17] at h
  by_cases h18 : i.op = 18
  · rw [if_pos h18] at h
    exact (aluStep_not_early h).elim
  rw [if_neg h18] at h
  by_cases h19 : i.op = 19
  · rw [if_pos h19] at h
    exact (aluStep_not_early h).elim
  rw [if_neg h19] at h
  by_cases h20 : i.op = 20
  · rw [if_pos h20] at h
    exact (aluStep_not_early h).elim
  rw [if_neg h20] at h
  by_cases h21 : i.op = 21
  · rw [if_pos h21] at h
    exact (aluStep_not_early h).elim
  rw [if_neg h21] at h
  by_cases h22 : i.op = 22
  · rw [if_pos h22] at h
    exact (aluStep_not_early h).elim
  rw [if_neg h22] at h
  by_cases h23 : i.op = 23
  · rw [if_pos h23] at h
    exact (aluStep_not_early h).elim
  rw [if_neg h23] at h
  by_cases h24 : i.op = 24
  · rw [if_pos h24] at h
    exact (aluStep_not_early h).elim
  rw [if_neg h24] at h
  cases h

theorem condDispatch_fall {i : Inst} {s : CpuState} {m : Mem} {stop : Bool} {clk : Nat}
    {s2 m2 st2 c2}
    (h : condDispatch i s m stop clk = .fall s2 m2 st2 c2) :
    takenCond i s = false ∧ s2.pc = s.pc := by
  unfold condDispatch at h
  by_cases h0 : i.op = 0
  · rw [if_pos h0] at h
    rcases him : i.imm with _ | v
    · rw [him] at h
      dsimp only [] at h
      rcases hdv : getReg s.regs i.dst with _ | dv
      · rw [hdv] at h; cases h
      · rw [hdv] at h; cases h
    · rw [him] at h; cases h
  rw [if_neg h0] at h
  by_cases h1 : i.op = 1
  · rw [if_pos h1] at h
    obtain ⟨hs, hp⟩ := condStep_fall h
    subst hs
    refine ⟨?_, rfl⟩
    unfold takenCond
    rw [h1]
    exact hp
  rw [if_neg h1] at h
  by_cases h2 : i.op = 2
  · rw [if_pos h2] at h
    obtain ⟨hs, hp⟩ := condStep_fall h
    subst hs
    refine ⟨?_, rfl⟩
    unfold takenCond
    rw [h2]
    exact hp
  rw [if_neg h2] at h
  by_cases h3 : i.op = 3
  · rw [if_pos h3] at h
    obtain ⟨hs, hp⟩ := condStep_fall h
    subst hs
    refine ⟨?_, rfl⟩
    unfold takenCond
    rw [h3]
    exact hp
  rw [if_neg h3] at h
  by_cases h4 : i.op = 4
  · rw [if_pos h4] at h
    obtain ⟨hs, hp⟩ := condStep_fall h
    subst hs
    refine ⟨?_, rfl⟩
    unfold takenCond
    rw [h4]
    exact hp
  rw [if_neg h4] at h
  by_cases h5 : i.op = 5
  · rw [if_pos h5] at h
    obtain ⟨hs, hp⟩ := condStep_fall h
    subst hs
    refine ⟨?_, rfl⟩
    unfold takenCond
    rw [h5]
    exact hp
  rw [if_neg h5] at h
  by_cases h6 : i.op = 6
  · rw [if_pos h6] at h
    obtain ⟨hs, hp⟩ := condStep_fall h
    subst hs
    refine ⟨?_, rfl⟩
    unfold takenCond
    rw [h6]
    exact hp
  rw [if_neg h6] at h
  by_cases h7 : i.op = 7
  · rw [if_pos h7] at h
    obtain ⟨hs, hp⟩ := condStep_fall h
    subst hs
    refine ⟨?_, rfl⟩
    unfold takenCond
    rw [h7]
    exact hp
  rw [if_neg h7] at h
  by_cases h8 : i.op = 8
  · rw [if_pos h8] at h
    obtain ⟨hs, hp⟩ := condStep_fall h
    subst hs
    refine ⟨?_, rfl⟩
    unfold takenCond
    rw [h8]
    exact hp
  rw [if_neg h8] at h
  by_cases h9 : i.op = 9
  · rw [if_pos h9] at h
    obtain ⟨hs, hp⟩ := condStep_fall h
    subst hs
    refine ⟨?_, rfl⟩
    unfold takenCond
    rw [h9]
    exact hp
  rw [if_neg h9] at h
  by_cases h10 : i.op = 10
  · rw [if_pos h10] at h
    obtain ⟨hs, hp⟩ := condStep_fall h
    subst hs
    refine ⟨?_, rfl⟩
    unfold takenCond
    rw [h10]
    exact hp
  rw [if_neg h10] at h
  cases h

theorem condDispatch_early {i : Inst} {s : CpuState} {m : Mem} {stop : Bool} {clk : Nat}
    {s2 m2 st2 c2}
    (h : condDispatch i s m stop clk = .early s2 m2 st2 c2) :
    takenCond i s = true ∧ s2.pc = jmpTarget i s := by
  unfold condDispatch at h
  by_cases h0 : i.op = 0
  · rw [if_pos h0] at h
    constructor
    · simp [takenCond, h0]
    · rcases him : i.imm with _ | v
      · rw [him] at h
        dsimp only [] at h
        rcases hdv : getReg s.regs i.dst with _ | dv
        · rw [hdv] at h; cases h
        · rw [hdv] at h
          cases h
          simp only [jmpTarget, him]
          exact getReg_some_eq hdv
      · rw [him] at h
        cases h
        simp only [jmpTarget, him]
  rw [if_neg h0] at h
  by_cases h1 : i.op = 1
  · rw [if_pos h1] at h
    obtain ⟨hp, hpc⟩ := condStep_early h
    refine ⟨?_, hpc⟩
    unfold takenCond
    rw [h1]
    exact hp
  rw [if_neg h1] at h
  by_cases h2 : i.op = 2
  · rw [if_pos h2] at h
    obtain ⟨hp, hpc⟩ := condStep_early h
    refine ⟨?_, hpc⟩
    unfold takenCond
    rw [h2]
    exact hp
  rw [if_neg h2] at h
  by_cases h3 : i.op = 3
  · rw [if_pos h3] at h
    obtain ⟨hp, hpc⟩ := condStep_early h
    refine ⟨?_, hpc⟩
    unfold takenCond
    rw [h3]
    exact hp
  rw [if_neg h3] at h
  by_cases h4 : i.op = 4
  · rw [if_pos h4] at h
    obtain ⟨hp, hpc⟩ := condStep_early h
    refine ⟨?_, hpc⟩
    unfold takenCond
    rw [h4]
    exact hp
  rw [if_neg h4] at h
  by_cases h5 : i.op = 5
  · rw [if_pos h5] at h
    obtain ⟨hp, hpc⟩ := condStep_early h
    refine ⟨?_, hpc⟩
    unfold takenCond
    rw [h5]
    exact hp
  rw [if_neg h5] at h
  by_cases h6 : i.op = 6
  · rw [if_pos h6] at h
    obtain ⟨hp, hpc⟩ := condStep_early h
    refine ⟨?_, hpc⟩
    unfold takenCond
    rw [h6]
    exact hp
  rw [if_neg h6] at h
  by_cases h7 : i.op = 7
  · rw [if_pos h7] at h
    obtain ⟨hp, hpc⟩ := condStep_early h
    refine ⟨?_, hpc⟩
    unfold takenCond
    rw [h7]
    exact hp
  rw [if_neg h7] at h
  by_cases h8 : i.op = 8
  · rw [if_pos h8] at h
    obtain ⟨hp, hpc⟩ := condStep_early h
    refine ⟨?_, hpc⟩
    unfold takenCond
    rw [h8]
    exact hp
  rw [if_neg h8] at h
  by_cases h9 : i.op = 9
  · rw [if_pos h9] at h
    obtain ⟨hp, hpc⟩ := condStep_early h
    refine ⟨?_, hpc⟩
    unfold takenCond
    rw [h9]
    exact hp
  rw [if_neg h9] at h
  by_cases h10 : i.op = 10
  · rw [if_pos h10] at h
    obtain ⟨hp, hpc⟩ := condStep_early h
    refine ⟨?_, hpc⟩
    unfold takenCond
    rw [h10]
    exact hp
  rw [if_neg h10] at h
  cases h

theorem stackArm_fall_pc {i : Inst} {s : CpuState} {m : Mem} {stop : Bool} {clk : Nat}
    {s2 m2 st2 c2}
    (h : stackArm i s m stop clk = .fall s2 m2 st2 c2) : s2.pc = s.pc := by
  unfold stackArm at h
  by_cases h0 : i.op = 0
  · rw [if_pos h0] at h
    exact armPush_cases.1 h
  rw [if_neg h0] at h
  by_cases h1 : i.op = 1
  · rw [if_pos h1] at h
    exact armPop_cases.1 h
  rw [if_neg h1] at h
  by_cases h2 : i.op = 2
  · rw [if_pos h2] at h
    exact (armCall_cases.1 h).elim
  rw [if_neg h2] at h
  by_cases h3 : i.op = 3
  · rw [if_pos h3] at h
    exact (armRet_cases.1 h).elim
  rw [if_neg h3] at h
  cases h

theorem stackArm_early {i : Inst} {s : CpuState} {m : Mem} {stop : Bool} {clk : Nat}
    {s2 m2 st2 c2}
    (h : stackArm i s m stop clk = .early s2 m2 st2 c2) :
    i.op = 2 ∨ i.op = 3 := by
  unfold stackArm at h
  by_cases h0 : i.op = 0
  · rw [if_pos h0] at h
    exact (armPush_cases.2 h).elim
  rw [if_neg h0] at h
  by_cases h1 : i.op = 1
  · rw [if_pos h1] at h
    exact (armPop_cases.2 h).elim
  rw [if_neg h1] at h
  by_cases h2 : i.op = 2
  · rw [if_pos h2] at h
    exact Or.inl h2
  rw [if_neg h2] at h
  by_cases h3 : i.op = 3
  · rw [if_pos h3] at h
    exact Or.inr h3
  rw [if_neg h3] at h
  cases h

set_option maxHeartbeats 1600000 in
theorem arms_fall {i : Inst} {s : CpuState} {m : Mem} {stop : Bool} {t clk : Nat}
    {s2 m2 st2 c2}
    (h : processArms i s m stop t clk = .fall s2 m2 st2 c2) :
    s2.pc = s.pc ∧ (i.mode = 2 → takenCond i s = false) := by
  unfold processArms at h
  split_ifs at h with hm0 hm1 hm2 hm3
  · exact ⟨sysArm_fall_pc h, fun hc => absurd (hm0 ▸ hc) (by omega)⟩
  · exact ⟨aluDispatch_fall_pc h, fun hc => absurd (hm1 ▸ hc) (by omega)⟩
  · obtain ⟨ht, hpc⟩ := condDispatch_fall h
    exact ⟨hpc, fun _ => ht⟩
  · exact ⟨stackArm_fall_pc h, fun hc => absurd (hm3 ▸ hc) (by omega)⟩

set_option maxHeartbeats 1600000 in
theorem arms_early {i : Inst} {s : CpuState} {m : Mem} {stop : Bool} {t clk : Nat}
    {s2 m2 st2 c2}
    (h : processArms i s m stop t clk = .early s2 m2 st2 c2) :
    writesPc i s ∧ (i.mode = 2 → s2.pc = jmpTarget i s) := by
  unfold processArms at h
  split_ifs at h with hm0 hm1 hm2 hm3
  · obtain ⟨hop, him⟩ := sysArm_early h
    exact ⟨Or.inl ⟨hm0, hop, him⟩, fun hc => absurd (hm0 ▸ hc) (by omega)⟩
  · exact absurd h (by intro hh; exact aluDispatch_not_early hh)
  · obtain ⟨ht, hpc⟩ := condDispatch_early h
    exact ⟨Or.inr (Or.inl ⟨hm2, ht⟩), fun _ => hpc⟩
  · exact ⟨Or.inr (Or.inr ⟨hm3, stackArm_early h⟩), fun hc => absurd (hm3 ▸ hc) (by omega)⟩

end ToyEmu

namespace ToyEmu

/-- C7: for every instruction that `Cpu::process` executes
successfully and that does not itself write `pc` (i.e. excluding
`hlt`, taken mode-2 jumps, `call` and `ret`), `pc` is advanced by
exactly 8 when the instruction carries an immediate and by exactly 4
otherwise (wrapping); a conditional jump whose predicate is false
falls under the same advance, and a taken mode-2 jump sets `pc` to
the target with no further advance. -/
theorem c7_pc_advance (i : Inst) (s : CpuState) (m : Mem) (stop : Bool) (t clk : Nat)
    (s' : CpuState) (m' : Mem) (stop' : Bool) (clk' : Nat)
    (h : process i s m stop t clk = .ok s' m' stop' clk') :
    (¬ writesPc i s → s'.pc = wrap32 (s.pc + instWidth i))
    ∧ (i.mode = 2 → takenCond i s = true → s'.pc = jmpTarget i s) := by
  unfold process at h
  rcases har : processArms i s m stop t clk with
    ⟨s2, m2, st2, c2⟩ | ⟨s2, m2, st2, c2⟩ | ⟨e, s2, m2⟩ | _ <;>
    rw [har] at h
  · -- fell through to the pc advance
    obtain ⟨hpc, htk⟩ := arms_fall har
    cases h
    constructor
    · intro _
      show wrap32 (s2.pc + instWidth i) = wrap32 (s.pc + instWidth i)
      rw [hpc]
    · intro hm2 htaken
      rw [htk hm2] at htaken
      cases htaken
  · -- early return: the arm wrote pc itself
    obtain ⟨hw, hj⟩ := arms_early har
    cases h
    exact ⟨fun hnw => absurd hw hnw, fun hm2 _ => hj hm2⟩
  · cases h
  · cases h

/-- Witness for C7: a `nop` at `pc = 100` advances to 104. -/
theorem c7_pc_advance_witness :
    Step.pcOf (process ⟨0, 0, 0, 0, 0, none⟩ ⟨defaultRegs, 0, 100, 0⟩ memZero false 0 1)
      = 104 := by
  have h : process ⟨0, 0, 0, 0, 0, none⟩ ⟨defaultRegs, 0, 100, 0⟩ memZero false 0 1
      = .ok (advancePc ⟨0, 0, 0, 0, 0, none⟩ ⟨defaultRegs, 0, 100, 0⟩) memZero false 1 := rfl
  have h2 := (c7_pc_advance ⟨0, 0, 0, 0, 0, none⟩ ⟨defaultRegs, 0, 100, 0⟩ memZero false 0 1
      _ _ _ _ h).1
    (by
      unfold writesPc takenCond
      simp)
  rw [h]
  exact h2

end ToyEmu

namespace ToyEmu

/-- Execute a list of instructions through `Cpu::process` the way the
driver does between faults (fresh `clk = 1`, stop flag false, time
oracle irrelevant); any non-success aborts. -/
def execInsts : List Inst → CpuState → Mem → Option (CpuState × Mem)
  | [], s, m => some (s, m)
  | i :: rest, s, m =>
      match process i s m false 0 1 with
      | .ok s' m' _ _ => execInsts rest s' m'
      | _ => none

/-- `push r` instructions for a list of source registers. -/
def pushes (rs : List Nat) : List Inst := rs.map pushInst

/-- `pop d` instructions for a list of destination registers. -/
def pops (ds : List Nat) : List Inst := ds.map popInst

/-- Register `r` in the final state of an execution (0 if it aborted). -/
def regOfOpt (o : Option (CpuState × Mem)) (r : Nat) : Nat :=
  match o with
  | some (s, _) => s.regs r
  | none => 0

/-- The value the `j`-th push of the sequence `rs` stores: the value
of register `rs_j` at that moment — pushes only change `sp`, so this
is the initial value unless `rs_j` is `sp` itself. -/
def pushVal (s : CpuState) (rs : List Nat) (j : Nat) : Nat :=
  if rs.getD j 0 = 2 then s.regs 2 - 4 * j else s.regs (rs.getD j 0)

theorem execInsts_append (xs ys : List Inst) :
    ∀ (s : CpuState) (m : Mem),
      execInsts (xs ++ ys) s m =
        match execInsts xs s m with
        | some (s', m') => execInsts ys s' m'
        | none => none := by
  induction xs with
  | nil => intro s m; rfl
  | cons i rest ih =>
      intro s m
      show (match process i s m false 0 1 with
            | .ok s' m' _ _ => execInsts (rest ++ ys) s' m'
            | _ => none) = _
      rcases hp : process i s m false 0 1 with ⟨s1, m1, st1, c1⟩ | _ | _ <;>
        simp only [execInsts, hp, ih]

theorem store4BE_outside {m : Mem} {addr v a : Nat} (h : a < addr ∨ addr + 4 ≤ a) :
    store4BE m addr v a = m a := by
  unfold store4BE
  have h1 : a ≠ addr := by omega
  have h2 : a ≠ addr + 1 := by omega
  have h3 : a ≠ addr + 2 := by omega
  have h4 : a ≠ addr + 3 := by omega
  simp [h1, h2, h3, h4]

theorem read4BE_store4BE (m : Mem) (addr v : Nat) (hv : v < U32MOD) :
    read4BE (store4BE m addr v) addr = v := by
  have h1 : addr + 1 ≠ addr := by omega
  have h2 : addr + 2 ≠ addr := by omega
  have h3 : addr + 2 ≠ addr + 1 := by omega
  have h4 : addr + 3 ≠ addr := by omega
  have h5 : addr + 3 ≠ addr + 1 := by omega
  have h6 : addr + 3 ≠ addr + 2 := by omega
  unfold read4BE store4BE
  simp only [h1, h2, h3, h4, h5, h6, if_true, if_false, eq_self_iff_true, if_neg, if_pos,
    ite_true, ite_false, reduceIte]
  unfold U32MOD at hv
  omega

theorem read4BE_congr {m m' : Mem} {addr : Nat}
    (h : ∀ a, addr ≤ a → a < addr + 4 → m a = m' a) :
    read4BE m addr = read4BE m' addr := by
  unfold read4BE
  rw [h addr (by omega) (by omega), h (addr + 1) (by omega) (by omega),
    h (addr + 2) (by omega) (by omega), h (addr + 3) (by omega) (by omega)]

theorem push_step (s : CpuState) (m : Mem) (r : Nat)
    (hr : r < 32) (hsp4 : 4 ≤ s.regs 2) (hspU : s.regs 2 < U32MOD) :
    process (pushInst r) s m false 0 1 =
      .ok (advancePc (pushInst r) { s with regs := updf s.regs 2 (s.regs 2 - 4) })
        (store4BE m (s.regs 2 - 4) (s.regs r)) false 2 := by
  have h := push_ok s m false 0 1 r hr hspU (Or.inr hsp4)
  rw [wsub4_of_ge _ hsp4 hspU] at h
  exact h

theorem pop_step (s : CpuState) (m : Mem) (d : Nat)
    (hd : d < 32) (h0 : d ≠ 0) (hspU : s.regs 2 + 4 < U32MOD) :
    process (popInst d) s m false 0 1 =
      .ok (advancePc (popInst d)
        { s with regs := updf (updf s.regs 2 (s.regs 2 + 4)) d (read4BE m (s.regs 2)) })
        m false 2 := by
  have h := pop_ok s m false 0 1 d hd hspU
  rw [if_neg h0] at h
  have hw : wrap32 (s.regs 2 + 4) = s.regs 2 + 4 := by
    unfold wrap32
    exact Nat.mod_eq_of_lt hspU
  rw [hw] at h
  exact h

end ToyEmu

namespace ToyEmu

theorem updf_same (f : Nat → Nat) (i v : Nat) : updf f i v i = v := by
  simp [updf]

theorem updf_other (f : Nat → Nat) (i v j : Nat) (h : j ≠ i) : updf f i v j = f j := by
  simp [updf, h]

/-- Effect of a run of pushes: `sp` drops by `4·k`, no other register
moves, memory outside the new stack span is untouched, and the `j`-th
pushed value sits big-endian at `sp₀ − 4(j+1)`. -/
theorem pushes_run (rs : List Nat) :
    ∀ (s : CpuState) (m : Mem),
      (∀ r ∈ rs, r < 32) →
      4 * rs.length ≤ s.regs 2 →
      s.regs 2 < U32MOD →
      (∀ j, s.regs j < U32MOD) →
      ∃ s' m',
        execInsts (pushes rs) s m = some (s', m')
        ∧ s'.regs 2 = s.regs 2 - 4 * rs.length
        ∧ (∀ j, j ≠ 2 → s'.regs j = s.regs j)
        ∧ (∀ a, a < s.regs 2 - 4 * rs.length ∨ s.regs 2 ≤ a → m' a = m a)
        ∧ (∀ j, j < rs.length → read4BE m' (s.regs 2 - 4 * (j + 1)) = pushVal s rs j) := by
  induction rs with
  | nil =>
      intro s m _ _ _ _
      exact ⟨s, m, rfl, by simp, fun _ _ => rfl, fun _ _ => rfl, fun j hj => absurd hj (by simp)⟩
  | cons r rs' ih =>
      intro s m hr hsp4 hspU hbnd
      have hrlt : r < 32 := hr r (by simp)
      have hlen : (r :: rs').length = rs'.length + 1 := rfl
      have hsp4' : 4 ≤ s.regs 2 := by rw [hlen] at hsp4; omega
      have hstep := push_step s m r hrlt hsp4' hspU
      set s1 : CpuState :=
        advancePc (pushInst r) { s with regs := updf s.regs 2 (s.regs 2 - 4) } with hs1
      set m1 : Mem := store4BE m (s.regs 2 - 4) (s.regs r) with hm1
      have hs1regs : s1.regs = updf s.regs 2 (s.regs 2 - 4) := rfl
      have hs1sp : s1.regs 2 = s.regs 2 - 4 := by rw [hs1regs]; exact updf_same _ _ _
      obtain ⟨s', m', hexec, hsp', hregs', hmem', hcont'⟩ :=
        ih s1 m1 (fun x hx => hr x (by simp [hx]))
          (by rw [hs1sp]; rw [hlen] at hsp4; omega)
          (by rw [hs1sp]; omega)
          (by
            intro j
            rw [hs1regs]
            by_cases hj : j = 2
            · rw [hj, updf_same]; omega
            · rw [updf_other _ _ _ _ hj]; exact hbnd j)
      refine ⟨s', m', ?_, ?_, ?_, ?_, ?_⟩
      · show execInsts (pushInst r :: pushes rs') s m = some (s', m')
        unfold execInsts
        rw [hstep]
        exact hexec
      · rw [hsp', hs1sp, hlen]
        omega
      · intro j hj
        rw [hregs' j hj, hs1regs, updf_other _ _ _ _ hj]
      · intro a ha
        have h1 : m' a = m1 a := by
          apply hmem'
          rw [hs1sp]
          rcases ha with h | h
          · left; omega
          · right; omega
        rw [h1, hm1]
        apply store4BE_outside
        rcases ha with h | h
        · left; omega
        · right; omega
      · intro j hj
        rcases j with _ | j'
        · -- the first push: value at sp₀ − 4
          have hagree : read4BE m' (s.regs 2 - 4) = read4BE m1 (s.regs 2 - 4) := by
            apply read4BE_congr
            intro a ha1 ha2
            apply hmem'
            rw [hs1sp]
            right
            omega
          show read4BE m' (s.regs 2 - 4) = pushVal s (r :: rs') 0
          rw [hagree, hm1, read4BE_store4BE m _ _ (hbnd r)]
          unfold pushVal
          by_cases hr2 : r = 2
          · simp [List.getD, hr2]
          · simp [List.getD, hr2]
        · -- later pushes: shift the index by one
          have hidx : s1.regs 2 - 4 * (j' + 1) = s.regs 2 - 4 * (j' + 1 + 1) := by
            rw [hs1sp]; omega
          have hc := hcont' j' (by rw [hlen] at hj; omega)
          rw [hidx] at hc
          rw [hc]
          unfold pushVal
          have hgd : (r :: rs').getD (j' + 1) 0 = rs'.getD j' 0 := rfl
          rw [hgd]
          by_cases h2 : rs'.getD j' 0 = 2
          · rw [if_pos h2, if_pos h2, hs1sp]
            omega
          · rw [if_neg h2, if_neg h2, hs1regs, updf_other _ _ _ _ h2]

end ToyEmu

namespace ToyEmu

/-- Effect of a run of pops whose destinations avoid `zr` and `sp`:
memory is untouched, `sp` rises by `4·k`, and the `j`-th pop (in
execution order) deposits the 4 bytes at `sp₀ + 4j` into its
destination register. -/
theorem pops_run (ds : List Nat) :
    ∀ (s : CpuState) (m : Mem),
      (∀ d ∈ ds, d < 32 ∧ d ≠ 0 ∧ d ≠ 2) →
      s.regs 2 + 4 * ds.length < U32MOD →
      ∃ s',
        execInsts (pops ds) s m = some (s', m)
        ∧ s'.regs 2 = s.regs 2 + 4 * ds.length
        ∧ (∀ j, j < ds.length →
            regOfOpt (execInsts (pops (ds.take (j + 1))) s m) (ds.getD j 0)
              = read4BE m (s.regs 2 + 4 * j)) := by
  induction ds with
  | nil =>
      intro s m _ _
      exact ⟨s, rfl, by simp, fun j hj => absurd hj (by simp)⟩
  | cons d ds' ih =>
      intro s m hd hsp
      obtain ⟨hdlt, hd0, hd2⟩ := hd d (by simp)
      have hlen : (d :: ds').length = ds'.length + 1 := rfl
      have hsp1 : s.regs 2 + 4 < U32MOD := by rw [hlen] at hsp; omega
      have hstep := pop_step s m d hdlt hd0 hsp1
      set s1 : CpuState :=
        advancePc (popInst d)
          { s with regs := updf (updf s.regs 2 (s.regs 2 + 4)) d (read4BE m (s.regs 2)) }
        with hs1
      have hs1regs : s1.regs = updf (updf s.regs 2 (s.regs 2 + 4)) d (read4BE m (s.regs 2)) :=
        rfl
      have hs1sp : s1.regs 2 = s.regs 2 + 4 := by
        rw [hs1regs, updf_other _ _ _ _ (fun hc => hd2 hc.symm), updf_same]
      obtain ⟨s', hexec, hsp', hcont'⟩ :=
        ih s1 m (fun x hx => hd x (by simp [hx]))
          (by rw [hs1sp]; rw [hlen] at hsp; omega)
      refine ⟨s', ?_, ?_, ?_⟩
      · show execInsts (popInst d :: pops ds') s m = some (s', m)
        unfold execInsts
        rw [hstep]
        exact hexec
      · rw [hsp', hs1sp, hlen]
        omega
      · intro j hj
        rcases j with _ | j'
        · show regOfOpt (execInsts [popInst d] s m) d = read4BE m (s.regs 2 + 4 * 0)
          unfold execInsts
          rw [hstep]
          show s1.regs d = read4BE m (s.regs 2 + 4 * 0)
          rw [hs1regs, updf_same]
          norm_num
        · have htake : (d :: ds').take (j' + 1 + 1) = d :: ds'.take (j' + 1) := rfl
          have hgd : (d :: ds').getD (j' + 1) 0 = ds'.getD j' 0 := rfl
          rw [htake, hgd]
          show regOfOpt (execInsts (popInst d :: pops (ds'.take (j' + 1))) s m)
              (ds'.getD j' 0) = read4BE m (s.regs 2 + 4 * (j' + 1))
          unfold execInsts
          rw [hstep]
          have hc := hcont' j' (by rw [hlen] at hj; omega)
          rw [hs1sp] at hc
          have harith : s.regs 2 + 4 + 4 * j' = s.regs 2 + 4 * (j' + 1) := by omega
          rw [harith] at hc
          exact hc

end ToyEmu

namespace ToyEmu

/-- Register file for the C9 scenarios: `t0` (5) holds 77, `sp` (2)
holds 100, all else 0. -/
def regsC9 : Nat → Nat := fun j => if j = 5 then 77 else if j = 2 then 100 else 0

/-- CPU state for the C9 scenarios. -/
def stateC9 : CpuState := ⟨regsC9, 0, 0, 0⟩

/-- C9 (counterexample): the LIFO claim fails as stated when a pop
destination is `zr` (index 0) or `sp` (index 2).  Pushing 77 from
`t0` and popping into `zr` leaves `zr` at 0 (the write is discarded),
and popping into `sp` leaves `sp` at the popped value 77 instead of
restoring the original 100. -/
theorem c9_pop_into_zr_or_sp_fails :
    regOfOpt (execInsts (pushes [5] ++ pops [0]) stateC9 memZero) 0 = 0
    ∧ (0 : Nat) ≠ 77
    ∧ regOfOpt (execInsts (pushes [5] ++ pops [2]) stateC9 memZero) 2 = 77
    ∧ (77 : Nat) ≠ 100 := by
  refine ⟨rfl, by decide, rfl, by decide⟩

/-- C9 (amended): stack round-trip discipline, restricted to pop
destinations other than `zr` and `sp`.  `rs` lists the pushed source
registers in push order; `ds` lists the pop destinations in pop
order, so pop `j` corresponds to push `k − 1 − j` (pops run in
reverse push order).  Provided the stack span does not wrap
(`4·k ≤ sp < 2³²`) and registers hold 32-bit values: the whole
sequence executes, `sp` returns to its initial value, and the `j`-th
pop deposits into `ds_j` exactly the value pushed by push
`k − 1 − j`. -/
theorem c9_stack_lifo_amended (rs ds : List Nat) (s : CpuState) (m : Mem)
    (hlen : ds.length = rs.length)
    (hr : ∀ r ∈ rs, r < 32)
    (hd : ∀ d ∈ ds, d < 32 ∧ d ≠ 0 ∧ d ≠ 2)
    (hsp4 : 4 * rs.length ≤ s.regs 2)
    (hspU : s.regs 2 < U32MOD)
    (hbnd : ∀ j, s.regs j < U32MOD) :
    (execInsts (pushes rs ++ pops ds) s m).isSome = true
    ∧ regOfOpt (execInsts (pushes rs ++ pops ds) s m) 2 = s.regs 2
    ∧ (∀ j, j < ds.length →
        regOfOpt (execInsts (pushes rs ++ pops (ds.take (j + 1))) s m) (ds.getD j 0)
          = pushVal s rs (rs.length - 1 - j)) := by
  obtain ⟨sP, mP, hexecP, hspP, _, hmemP, hcontP⟩ := pushes_run rs s m hr hsp4 hspU hbnd
  have hpopHyp : sP.regs 2 + 4 * ds.length < U32MOD := by
    rw [hspP, hlen]
    omega
  obtain ⟨s', hexecQ, hspQ, hcontQ⟩ := pops_run ds sP mP hd hpopHyp
  have hfull : execInsts (pushes rs ++ pops ds) s m = some (s', mP) := by
    rw [execInsts_append, hexecP]
    exact hexecQ
  refine ⟨?_, ?_, ?_⟩
  · rw [hfull]; rfl
  · rw [hfull]
    show s'.regs 2 = s.regs 2
    rw [hspQ, hspP, hlen]
    omega
  · intro j hj
    have hpre : execInsts (pushes rs ++ pops (ds.take (j + 1))) s m
        = execInsts (pops (ds.take (j + 1))) sP mP := by
      rw [execInsts_append, hexecP]
    rw [hpre]
    rw [hcontQ j hj]
    have hidx : sP.regs 2 + 4 * j = s.regs 2 - 4 * (rs.length - 1 - j + 1) := by
      rw [hspP]
      rw [hlen] at hj
      omega
    rw [hidx]
    exact hcontP (rs.length - 1 - j) (by rw [hlen] at hj; omega)

/-- Witness for the amended C9: push 77 from `t0`, pop into `t1`
(index 6); the pop observes 77. -/
theorem c9_stack_lifo_amended_witness :
    regOfOpt (execInsts (pushes [5] ++ pops ([6].take (0 + 1))) stateC9 memZero)
        ([6].getD 0 0) = pushVal stateC9 [5] ([5].length - 1 - 0) := by
  refine (c9_stack_lifo_amended [5] [6] stateC9 memZero rfl ?_ ?_ ?_ ?_ ?_).2.2 0 (by norm_num)
  · intro r hr
    simp at hr
    omega
  · intro d hdm
    simp at hdm
    omega
  · show 4 * 1 ≤ regsC9 2
    norm_num [regsC9]
  · show regsC9 2 < U32MOD
    norm_num [regsC9, U32MOD]
  · intro j
    show regsC9 j < U32MOD
    unfold regsC9 U32MOD
    split_ifs <;> omega

end ToyEmu

namespace ToyEmu

/-!  ## `src/aspen/src/instruction.rs` and `src/aspen/src/emulator.rs`

The decoder: `Instruction::from_buf` extracts the mode from the top
two bits of the control byte (`rotate_left(2) & 0b11` equals dividing
by 64 for a `u8`), the has-immediate flag from bit 5, the destination
from the low 5 bits, masks the register bytes to 5 bits, reads the
immediate little-endian, and rejects `(mode, opcode)` pairs outside
the instruction table.  `Cpu::process` in the in-tree `cpu.rs`
dispatches on the raw `(mode, dst, op_code, a, b, imm)` record, so
the embedding decodes straight into that record. -/

/-- Decode errors.  `UnknownInstruction` is `InstError` from
`instruction.rs`.  `wrongSize` is Modelled from the spec: the
`Instruction::from_slice` wrapper the emulator calls is not under
`src/`, and §4.4 specifies that a truncated buffer fails with
`WrongSize`. -/
inductive InstErr : Type where
  | unknownInstruction (mode op : Nat)
  | wrongSize
  deriving DecidableEq, Repr

/-- The `(mode, opcode)` pairs of the `impl_inst!` table in
`instruction.rs`; each mode's opcodes are contiguous ranges. -/
def isKnown (mode op : Nat) : Bool :=
  ((mode == 0) && (decide (op ≤ 0x0b) || (decide (0x20 ≤ op) && decide (op ≤ 0x2b))))
  || ((mode == 1) && decide (op ≤ 0x18))
  || ((mode == 2) && decide (op ≤ 0x0a))
  || ((mode == 3) && decide (op ≤ 0x03))

/-- `Instruction::from_buf` over the 8 fetched bytes `b 0 .. b 7`. -/
def fromBuf (b : Nat → Nat) : Except InstErr Inst :=
  let ctrl := b 0 % 256
  let opcode := b 1 % 256
  let mode := ctrl / 64
  let dst := ctrl % 32
  let ra := b 2 % 32
  let rb := b 3 % 32
  let imm : Option Nat :=
    if ctrl / 32 % 2 = 1 then
      some (b 4 % 256 + 256 * (b 5 % 256) + 65536 * (b 6 % 256) + 16777216 * (b 7 % 256))
    else none
  if isKnown mode opcode then .ok ⟨mode, dst, opcode, ra, rb, imm⟩
  else .error (.unknownInstruction mode opcode)

/-- The old `Memory` of `src/aspen/src/memory.rs`: the raw byte array
plus the per-page protection vector (initially all `Read|Write`). -/
structure OldMemory where
  pages : Nat → Nat
  data : Mem

/-- The `Emulator` of `src/aspen/src/emulator.rs`. -/
structure Emu where
  cpu : CpuState
  mem : OldMemory

/-- `EmuError`. -/
inductive EmuError : Type where
  | mem (e : MemErr)
  | inst (e : InstErr)
  | cpu (e : CpuError)
  deriving DecidableEq, Repr

/-- Result of `Emulator::run` under a fuel bound. -/
inductive RunRes : Type where
  | done (emu : Emu)
  | fault (e : EmuError) (emu : Emu)
  | fuelOut (emu : Emu)
  | panicked

/-- `Emulator::next_inst`: decode the 8 bytes at `pc`
(a truncated tail of memory is the spec's `WrongSize`). -/
def nextInst (emu : Emu) : Except InstErr Inst :=
  if emu.cpu.pc + 7 < U32MOD then
    fromBuf (fun k => emu.mem.data (emu.cpu.pc + k))
  else .error .wrongSize

/-- `Emulator::run`, fuel-bounded.  Each iteration: decode at `pc`,
`check_prot(pc, Execute)`, execute, break on the stop flag, add the
cycle count.  `times` supplies the timestamp oracle per iteration. -/
def run (times : Nat → Nat) : Nat → Emu → RunRes
  | 0, emu => .fuelOut emu
  | fuel + 1, emu =>
    match nextInst emu with
    | .error e => .fault (.inst e) emu
    | .ok inst =>
      match checkProt emu.mem.pages emu.cpu.pc emu.cpu.pc ProtExec with
      | .error e => .fault (.mem e) emu
      | .ok _ =>
        match process inst emu.cpu emu.mem.data false (times fuel) 1 with
        | .err e s' m' => .fault (.cpu e) ⟨s', ⟨emu.mem.pages, m'⟩⟩
        | .panic => .panicked
        | .ok s' m' stop clk =>
          if stop then .done ⟨s', ⟨emu.mem.pages, m'⟩⟩
          else run times fuel ⟨{ s' with clk := (s'.clk + clk) % U64MOD }, ⟨emu.mem.pages, m'⟩⟩

/-- `Emulator::write_program`: copy the image to address 0 and mark
its page-aligned prefix `Read|Execute` (`change_prot(..size, X|R)`;
the `RangeTo` end saturates, so an empty program still repermissions
page 0). -/
def writeProgram (prog : List Nat) (emu : Emu) : Emu :=
  { cpu := emu.cpu,
    mem :=
      { pages :=
          changeProt emu.mem.pages 0
            ((prog.length + PAGE_SIZE - 1) / PAGE_SIZE * PAGE_SIZE - 1)
            (ProtExec ||| ProtRead),
        data := fun a => if a < prog.length then prog.getD a 0 else emu.mem.data a } }

/-- A fresh `Emulator` before `write_program`: default CPU, zeroed
memory, every page `Read|Write`. -/
def initEmu : Emu := ⟨⟨defaultRegs, 0, 0, 0⟩, ⟨fun _ => 3, fun _ => 0⟩⟩

/-- `Emulator::new(program)`. -/
def emuNew (prog : List Nat) : Emu := writeProgram prog initEmu

/-- Scenario A of the claim (and of the repo's `test_prot`): an empty
program, then pages over `0..100` forced to `Read|Write` only. -/
def emuA : Emu :=
  { cpu := (emuNew []).cpu,
    mem := ⟨changeProt (emuNew []).mem.pages 0 99 3, (emuNew []).mem.data⟩ }

/-- Scenario B: the single instruction `jmp 0x1000` (bytes
`A0 00 00 00 | 00 10 00 00`), whose taken jump lands in a
non-executable page, faulting at `pc = 0x1000`. -/
def emuB : Emu := emuNew [0xA0, 0, 0, 0, 0x00, 0x10, 0x00, 0x00]

/-- The error carried by a run result. -/
def errOfRun : RunRes → Option EmuError
  | .fault e _ => some e
  | _ => none

/-- The `pc` of the state carried by a run result. -/
def pcOfRun : RunRes → Nat
  | .done emu => emu.cpu.pc
  | .fault _ emu => emu.cpu.pc
  | .fuelOut emu => emu.cpu.pc
  | .panicked => 0

/-- C4 (counterexample): the error `run()` returns for an
execute-protection fault does not carry the faulting `pc`.  Faulting
at `pc = 0` (scenario A) and at `pc = 0x1000` (scenario B, after a
taken jump) produces the *same* error value
`Mem(PageFault(Execute))`, so no error component can equal the
faulting `pc` — contradicting `PageFault(Execute, 0)` as claimed. -/
theorem c4_pagefault_error_has_no_pc :
    errOfRun (run (fun _ => 0) 1 emuA) = some (.mem (.pageFault ProtExec))
    ∧ errOfRun (run (fun _ => 0) 2 emuB) = some (.mem (.pageFault ProtExec))
    ∧ pcOfRun (run (fun _ => 0) 1 emuA) = 0
    ∧ pcOfRun (run (fun _ => 0) 2 emuB) = 4096
    ∧ (0 : Nat) ≠ 4096 := by
  refine ⟨rfl, rfl, rfl, rfl, by decide⟩

end ToyEmu

namespace ToyEmu

/-- C4 (amended): when the page holding `pc` is mapped `Read|Write`
only and the bytes at `pc` decode, `run()` returns
`Mem(PageFault(Execute))` — the missing bits are Execute — on its
first iteration, *before executing the instruction*: the returned
emulator state is exactly the input state.  The error does not carry
the faulting `pc`. -/
theorem c4_exec_fault_before_execute (times : Nat → Nat) (fuel : Nat) (emu : Emu)
    (hdec : exceptOk (nextInst emu) = true)
    (hpage : emu.mem.pages (emu.cpu.pc / PAGE_SIZE) = 3) :
    run times (fuel + 1) emu = .fault (.mem (.pageFault ProtExec)) emu := by
  have hcp : checkProt emu.mem.pages emu.cpu.pc emu.cpu.pc ProtExec
      = .error (.pageFault ProtExec) := by
    unfold checkProt stepAddrs
    rw [if_pos (le_refl _)]
    have h1 : (emu.cpu.pc - emu.cpu.pc) / PAGE_SIZE + 1 = 1 := by
      simp [Nat.sub_self]
    rw [h1]
    show checkProtGo emu.mem.pages ProtExec [emu.cpu.pc + PAGE_SIZE * 0] = _
    unfold checkProtGo
    have h2 : (emu.cpu.pc + PAGE_SIZE * 0) / PAGE_SIZE = emu.cpu.pc / PAGE_SIZE := by
      simp
    rw [h2, hpage]
    rfl
  unfold run
  rcases hni : nextInst emu with e | inst
  · rw [hni] at hdec
    cases hdec
  · rw [hcp]

/-- Witness for the amended C4: scenario A faults with
`PageFault(Execute)` leaving the emulator untouched. -/
theorem c4_exec_fault_before_execute_witness :
    run (fun _ => 0) 1 emuA = .fault (.mem (.pageFault ProtExec)) emuA := by
  exact c4_exec_fault_before_execute (fun _ => 0) 0 emuA rfl rfl

end ToyEmu
